import Mathlib

/-!
# samma-io/siem: rule compilation and condition matching

A shallow embedding of `rule.go` and `server.go`, and theorems about it.

* Event documents (`map[string]interface{}` as produced by `encoding/json`) are the
  tagged values of `Value`; a Go map is an association list, read by `mapIndex`.
* A Go `func(map[string]interface{}) bool` is a `Matcher`, a function to `Option Bool`
  in which `none` stands for a call that does not return a boolean (a panic).
* `regexp.Compile`, `json.Marshal` and the NATS connection are not code of this
  repository: definitions that call them take them as arguments.
-/

namespace Siem

/-! ## Event documents -/

/-- A finite `float64`, given by its sign and by the shortest decimal digits that
identify it: the value is `0.d₁d₂… × 10 ^ dp`, as in `strconv`'s `decimalSlice`. -/
structure Number where
  neg : Bool
  d : List Nat
  dp : Int
  deriving DecidableEq, Repr

/-- The values an `interface{}` holds after JSON decoding: `nil`, `bool`, `float64`,
`string`, `[]interface{}` and `map[string]interface{}`. -/
inductive Value where
  | null
  | bool (b : Bool)
  | num (n : Number)
  | str (s : String)
  | arr (xs : List Value)
  | obj (kvs : List (String × Value))

/-- An event, `map[string]interface{}`. -/
abbrev Event := List (String × Value)

/-- The comparison `val == nil` on an `interface{}`. -/
def Value.isNil : Value → Bool
  | .null => true
  | _ => false

/-- The map read `v, ok := m[key]`: `none` when `ok` is false. -/
def mapIndex : List (String × Value) → String → Option Value
  | [], _ => none
  | (k, v) :: rest, key => if k = key then some v else mapIndex rest key

/-! ## `strings.Split(s, ".")` -/

/-- The loop of `strings.Split` with separator `.`: `acc` holds the current piece
reversed. -/
def splitDot : List Char → List Char → List String
  | [], acc => [String.mk acc.reverse]
  | c :: cs, acc =>
    if c = '.' then String.mk acc.reverse :: splitDot cs [] else splitDot cs (c :: acc)

/-- The call `strings.Split(s, ".")`. -/
def Split (s : String) : List String := splitDot s.data []

/-! ## `getNestedField` -/

/-- The loop of `getNestedField`: `current` is the loop variable, the list is what is
left of `path`. -/
def getNestedFieldLoop (current : Value) : List String → Value
  | [] => current
  | key :: rest =>
    match current with
    | .obj m =>
      match mapIndex m key with
      | some next => getNestedFieldLoop next rest
      | none => .null
    | _ => .null

/-- The function `getNestedField(data, path)`; the result `nil` is `Value.null`. -/
def getNestedField (data : Event) (path : List String) : Value :=
  getNestedFieldLoop (.obj data) path

/-- One step of the walk that the specification describes: the current value has to be
a mapping and the segment one of its keys. -/
def refStep (cur : Value) (seg : String) : Option Value :=
  match cur with
  | .obj m => m.lookup seg
  | _ => none

/-- The reference walk of the specification: start at the document, take one step per
segment in order, and be absent as soon as a step is. -/
def refWalk (data : Event) (path : List String) : Option Value :=
  path.foldlM refStep (.obj data)

/-! ## `fmt.Sprintf("%v", val)` -/

/-- The byte of a decimal digit. -/
def digitByte (n : Nat) : Char := Char.ofNat (48 + n % 10)

/-- The exponent part written by `strconv`'s `fmtE`: `e`, a sign, at least two digits. -/
def fmtExp (exp : Int) : String :=
  let sign := if exp < 0 then "-" else "+"
  let e := exp.natAbs
  let digits :=
    if e < 10 then String.mk ['0', digitByte e]
    else if e < 100 then String.mk [digitByte (e / 10), digitByte e]
    else String.mk [digitByte (e / 100), digitByte (e / 10), digitByte e]
  "e" ++ sign ++ digits

/-- The function `fmtE` of `strconv` at precision `nd - 1` (all digits shown). -/
def fmtE (n : Number) : String :=
  let sign := if n.neg then "-" else ""
  let first := match n.d with
    | [] => '0'
    | c :: _ => digitByte c
  let frac := if n.d.length > 1 then "." ++ String.mk (n.d.tail.map digitByte) else ""
  let exp : Int := if n.d.length = 0 then 0 else n.dp - 1
  sign ++ String.mk [first] ++ frac ++ fmtExp exp

/-- The function `fmtF` of `strconv` at precision `max (nd - dp) 0`. -/
def fmtF (n : Number) : String :=
  let sign := if n.neg then "-" else ""
  let nd : Int := n.d.length
  let prec := (nd - n.dp).toNat
  let whole :=
    if n.dp > 0 then
      let m := min n.d.length n.dp.toNat
      String.mk ((n.d.take m).map digitByte ++ List.replicate (n.dp.toNat - m) '0')
    else "0"
  let frac :=
    if prec > 0 then
      "." ++ String.mk ((List.range prec).map fun i =>
        let j : Int := n.dp + i
        if 0 ≤ j ∧ j < nd then digitByte (n.d.getD j.toNat 0) else '0')
    else ""
  sign ++ whole ++ frac

/-- The verb `%v` on a `float64`, which is `strconv.FormatFloat(f, 'g', -1, 64)`: the
exponent form is taken when the decimal exponent is below `-4` or at least `6`, the
precision that `formatDigits` uses for this decision in the shortest form. -/
def formatFloat (n : Number) : String :=
  let exp := n.dp - 1
  if exp < -4 ∨ exp ≥ 6 then fmtE n else fmtF n

/-- The order `a < b` of Go strings, on their characters. -/
def lessChars : List Char → List Char → Bool
  | _, [] => false
  | [], _ :: _ => true
  | a :: as, b :: bs => a.toNat < b.toNat || (a.toNat == b.toNat && lessChars as bs)

/-- Insertion of an entry in a list sorted by key (the key order of `fmtsort`). -/
def insertByKey (p : String × String) : List (String × String) → List (String × String)
  | [] => [p]
  | q :: rest =>
    if lessChars q.1.data p.1.data then q :: insertByKey p rest else p :: q :: rest

/-- The entries of a map in the order `fmt` prints them: sorted by key. -/
def sortByKey : List (String × String) → List (String × String)
  | [] => []
  | p :: rest => insertByKey p (sortByKey rest)

mutual
/-- The call `fmt.Sprintf("%v", val)` on a decoded JSON value. -/
def Sprint : Value → String
  | .null => "<nil>"
  | .bool b => if b then "true" else "false"
  | .num n => formatFloat n
  | .str s => s
  | .arr xs => "[" ++ " ".intercalate (SprintElems xs) ++ "]"
  | .obj kvs =>
    "map[" ++ " ".intercalate ((sortByKey (SprintEntries kvs)).map fun p => p.1 ++ ":" ++ p.2)
      ++ "]"
/-- The elements of a slice, each printed with `%v`. -/
def SprintElems : List Value → List String
  | [] => []
  | x :: xs => Sprint x :: SprintElems xs
/-- The entries of a map, each value printed with `%v`. -/
def SprintEntries : List (String × Value) → List (String × String)
  | [] => []
  | (k, v) :: rest => (k, Sprint v) :: SprintEntries rest
end

/-! ## Rules and conditions -/

/-- The struct `Compliance`. -/
structure Compliance where
  PCIDSS : List String
  GDPR : List String
  HIPAA : List String
  NIST : List String
  MITRE : List String
  TSC : List String
  GPG13 : List String
  deriving DecidableEq, Repr

/-- The struct `Condition`. -/
inductive Condition where
  | mk (Field Equals Regex : String) (And Or : List Condition)

/-- The field `Field`. -/
def Condition.Field : Condition → String
  | .mk f _ _ _ _ => f

/-- The field `Equals`. -/
def Condition.Equals : Condition → String
  | .mk _ e _ _ _ => e

/-- The field `Regex`. -/
def Condition.Regex : Condition → String
  | .mk _ _ r _ _ => r

/-- The field `And`. -/
def Condition.And : Condition → List Condition
  | .mk _ _ _ a _ => a

/-- The field `Or`. -/
def Condition.Or : Condition → List Condition
  | .mk _ _ _ _ o => o

/-- The struct `RuleFile`. -/
structure RuleFile where
  Name : String
  Description : String
  Severity : String
  NATSSubject : String
  Compliance : Compliance
  Match : Condition

/-- A Go value of type `func(event map[string]interface{}) bool`: `none` is a call that
does not return a boolean. -/
abbrev Matcher := Event → Option Bool

/-- The struct `CompiledRule`. -/
structure CompiledRule where
  Name : String
  Description : String
  Severity : String
  NATSSubject : String
  Compliance : Compliance
  Matcher : Matcher

/-- A compiled `*regexp.Regexp`, seen through its method `MatchString`. -/
structure Regexp where
  MatchString : String → Bool

/-- The type of `regexp.Compile`; the error is its message. -/
abbrev RegexpCompile := String → Except String Regexp

/-- The errors of rule compilation, with the data their messages are formatted from. -/
inductive CompileError where
  | noFieldAndOr
  | invalidRegex (regex field err : String)
  | neitherEqualsNorRegex (field : String)
  | rule (name : String) (err : CompileError)
  deriving DecidableEq, Repr

/-- The closure returned for an AND group: the loop over `matchers`. -/
def andMatcher : List Matcher → Matcher
  | [], _ => some true
  | m :: rest, event =>
    match m event with
    | none => none
    | some false => some false
    | some true => andMatcher rest event

/-- The closure returned for an OR group: the loop over `matchers`. -/
def orMatcher : List Matcher → Matcher
  | [], _ => some false
  | m :: rest, event =>
    match m event with
    | none => none
    | some true => some true
    | some false => orMatcher rest event

/-- The closure returned for an Equals leaf. -/
def equalsMatcher (fieldPath : List String) (target : String) : Matcher := fun event =>
  let val := getNestedField event fieldPath
  if val.isNil then some false else some (decide (Sprint val = target))

/-- The closure returned for a Regex leaf. -/
def regexMatcher (fieldPath : List String) (re : Regexp) : Matcher := fun event =>
  let val := getNestedField event fieldPath
  if val.isNil then some false else some (re.MatchString (Sprint val))

mutual
/-- The function `compileCondition`. -/
def compileCondition (Compile : RegexpCompile) : Condition → Except CompileError Matcher
  | .mk Field Equals Regex And Or =>
    if And.length > 0 then
      match compileMatchers Compile And with
      | .error err => .error err
      | .ok matchers => .ok (andMatcher matchers)
    else if Or.length > 0 then
      match compileMatchers Compile Or with
      | .error err => .error err
      | .ok matchers => .ok (orMatcher matchers)
    else if Field = "" then .error .noFieldAndOr
    else
      let fieldPath := Split Field
      if Equals ≠ "" then .ok (equalsMatcher fieldPath Equals)
      else if Regex ≠ "" then
        match Compile Regex with
        | .error err => .error (.invalidRegex Regex Field err)
        | .ok re => .ok (regexMatcher fieldPath re)
      else .error (.neitherEqualsNorRegex Field)
/-- The loop `for _, sub := range ...` of `compileCondition`, which compiles the
children in order and returns at the first error. -/
def compileMatchers (Compile : RegexpCompile) : List Condition → Except CompileError (List Matcher)
  | [] => .ok []
  | sub :: rest =>
    match compileCondition Compile sub with
    | .error err => .error err
    | .ok m =>
      match compileMatchers Compile rest with
      | .error err => .error err
      | .ok ms => .ok (m :: ms)
end

/-- The function `CompileRule`. -/
def CompileRule (Compile : RegexpCompile) (rf : RuleFile) : Except CompileError CompiledRule :=
  match compileCondition Compile rf.Match with
  | .error err => .error (.rule rf.Name err)
  | .ok matcher =>
    .ok { Name := rf.Name, Description := rf.Description, Severity := rf.Severity,
          NATSSubject := rf.NATSSubject, Compliance := rf.Compliance, Matcher := matcher }

/-! ## `processEvent` -/

/-- The struct `AlertRule`. -/
structure AlertRule where
  Name : String
  Description : String
  Severity : String
  Compliance : Compliance

/-- The struct `Alert`. -/
structure Alert where
  Rule : AlertRule
  Event : Event

/-- The bytes of a serialized alert. -/
abbrev Bytes := List UInt8

/-- The type of `json.Marshal` on alerts; the error is its message. -/
abbrev AlertMarshal := Alert → Except String Bytes

/-- The NATS connection behind `*NATSClient`, as a state machine: `Publish` takes the
state of the connection, a subject and the data, and gives the next state and the error
(`none` for `nil`). -/
structure NATSClient (σ : Type) where
  Publish : σ → String → Bytes → σ × Option String

/-- The lines `processEvent` writes to the log. -/
inductive LogLine where
  | marshalError (err : String)
  | publishError (subject err : String)
  | matchedPublished (name subject : String)
  deriving DecidableEq, Repr

/-- What a run of `processEvent` has done so far: the counter `matched`, the state of the
connection, the alerts built (each with the subject of its rule), the calls of `Publish`
and the log, all in order. -/
structure Run (σ : Type) where
  matched : Nat
  conn : σ
  alerts : List (String × Alert)
  published : List (String × Bytes)
  log : List LogLine

/-- The loop `for _, rule := range rules` of `processEvent`. -/
def processEventLoop {σ : Type} (Marshal : AlertMarshal) (nc : NATSClient σ) (event : Event) :
    List CompiledRule → Run σ → Option (Run σ)
  | [], run => some run
  | rule :: rest, run =>
    match rule.Matcher event with
    | none => none
    | some false => processEventLoop Marshal nc event rest run
    | some true =>
      let alert : Alert :=
        { Rule := { Name := rule.Name, Description := rule.Description,
                    Severity := rule.Severity, Compliance := rule.Compliance },
          Event := event }
      let run1 : Run σ :=
        { run with matched := run.matched + 1,
                   alerts := run.alerts ++ [(rule.NATSSubject, alert)] }
      match Marshal alert with
      | .error err =>
        processEventLoop Marshal nc event rest
          { run1 with log := run1.log ++ [.marshalError err] }
      | .ok data =>
        match nc.Publish run1.conn rule.NATSSubject data with
        | (conn, some err) =>
          processEventLoop Marshal nc event rest
            { run1 with conn := conn,
                        published := run1.published ++ [(rule.NATSSubject, data)],
                        log := run1.log ++ [.publishError rule.NATSSubject err] }
        | (conn, none) =>
          processEventLoop Marshal nc event rest
            { run1 with conn := conn,
                        published := run1.published ++ [(rule.NATSSubject, data)],
                        log := run1.log ++ [.matchedPublished rule.Name rule.NATSSubject] }

/-- A run of `processEvent` from the connection state `conn`, with everything it does. -/
def processEventRun {σ : Type} (Marshal : AlertMarshal) (nc : NATSClient σ) (conn : σ)
    (event : Event) (rules : List CompiledRule) : Option (Run σ) :=
  processEventLoop Marshal nc event rules
    { matched := 0, conn := conn, alerts := [], published := [], log := [] }

/-- The function `processEvent`: its result is the counter `matched`. -/
def processEvent {σ : Type} (Marshal : AlertMarshal) (nc : NATSClient σ) (conn : σ)
    (event : Event) (rules : List CompiledRule) : Option Nat :=
  (processEventRun Marshal nc conn event rules).map fun run => run.matched

/-! ## A small regular-expression engine for the examples -/

/-- The characters with a meaning in regular-expression syntax. -/
def isMeta (c : Char) : Bool :=
  "\\.+*?()|[]\x7b\x7d^$".data.contains c

/-- Whether `pat` is at the start of `text`, characters compared by `eq`. -/
def startsWithBy (eq : Char → Char → Bool) : List Char → List Char → Bool
  | [], _ => true
  | _ :: _, [] => false
  | p :: ps, t :: ts => eq p t && startsWithBy eq ps ts

/-- Whether `pat` occurs somewhere in `text`, characters compared by `eq`. -/
def containsBy (eq : Char → Char → Bool) (pat : List Char) : List Char → Bool
  | [] => startsWithBy eq pat []
  | t :: ts => startsWithBy eq pat (t :: ts) || containsBy eq pat ts

/-- A pattern of literal characters as a `Regexp`: an unanchored search, which ignores
the case of ASCII letters when `fold` is set. -/
def literalRegexp (fold : Bool) (pat : List Char) : Regexp where
  MatchString := fun s =>
    containsBy (fun a b => if fold then a.toLower == b.toLower else a == b) pat s.data

/-- An instance of `RegexpCompile` that covers the patterns of the tests: the flag `(?i)`
or nothing, followed by literal characters. It agrees with `regexp.Compile` on these
patterns and on rejecting `[invalid`; every pattern with a character of `isMeta` after
the flag is rejected. -/
def literalCompile : RegexpCompile := fun expr =>
  match expr.data with
  | '(' :: '?' :: 'i' :: ')' :: rest =>
    if rest.any isMeta then .error "error parsing regexp" else .ok (literalRegexp true rest)
  | pat =>
    if pat.any isMeta then .error "error parsing regexp" else .ok (literalRegexp false pat)

/-! ## The shape of a condition -/

/-- Leaf fields set: a field, and an equals value or a regex pattern. -/
def Condition.leafSet (c : Condition) : Bool :=
  c.Field ≠ "" && (c.Equals ≠ "" || c.Regex ≠ "")

/-- How many of leaf fields set, and-children non-empty, or-children non-empty hold at a
node. -/
def Condition.shapeCount (c : Condition) : Nat :=
  (if c.leafSet then 1 else 0) + (if c.And.isEmpty then 0 else 1) +
    (if c.Or.isEmpty then 0 else 1)

mutual
/-- The nodes `compileCondition` goes through on a condition that compiles: the node, then
its and-children if it has some, otherwise its or-children. -/
def Condition.visited : Condition → List Condition
  | .mk Field Equals Regex And Or =>
    .mk Field Equals Regex And Or ::
      (if And.length > 0 then visitedList And
       else if Or.length > 0 then visitedList Or
       else [])
/-- The nodes visited in a list of children. -/
def visitedList : List Condition → List Condition
  | [] => []
  | sub :: rest => sub.visited ++ visitedList rest
end

/-- A value of `Compliance` without tags. -/
def noCompliance : Compliance :=
  { PCIDSS := [], GDPR := [], HIPAA := [], NIST := [], MITRE := [], TSC := [], GPG13 := [] }

/-! ## Alerts handed to the dispatcher -/

/-- The pair of a destination and a payload for a rule and an event: the subject of the
rule, and the name, description, severity and compliance tags of the rule with the
event. -/
def alertFor (event : Event) (rule : CompiledRule) : String × Alert :=
  (rule.NATSSubject,
    { Rule := { Name := rule.Name, Description := rule.Description,
                Severity := rule.Severity, Compliance := rule.Compliance },
      Event := event })

/-- Whether the predicate of a rule returns true on an event. -/
def matchesEvent (event : Event) (rule : CompiledRule) : Bool :=
  rule.Matcher event == some true

/-- The call of `Publish` that an alert leads to: none when `json.Marshal` fails. -/
def publishCall (Marshal : AlertMarshal) (p : String × Alert) : Option (String × Bytes) :=
  match Marshal p.2 with
  | .ok data => some (p.1, data)
  | .error _ => none

/-! ## `LoadRules` -/

/-- One call of the function given to `filepath.WalkDir`: the path, the error argument
(`none` for `nil`), whether the entry is a directory, its name, and what `os.ReadFile` of
the path gives. -/
structure WalkEntry where
  path : String
  err : Option String
  IsDir : Bool
  Name : String
  ReadFile : Except String Bytes

/-- The type of `yaml.Unmarshal` into a `RuleFile`; the error is its message. -/
abbrev RuleUnmarshal := Bytes → Except String RuleFile

/-- The errors of `LoadRules`, with the data their messages are formatted from. -/
inductive LoadError where
  | walk (err : String)
  | reading (path err : String)
  | parsing (path err : String)
  | compiling (path : String) (err : CompileError)
  | walking (dir : String) (err : LoadError)

/-- The call `strings.HasSuffix(s, suffix)`. -/
def HasSuffix (s suffix : String) : Bool :=
  suffix.data.reverse.isPrefixOf s.data.reverse

/-- The function given to `filepath.WalkDir` in `LoadRules`, on one entry: `rules` is
the variable it appends to. -/
def walkFn (Compile : RegexpCompile) (Unmarshal : RuleUnmarshal) (rules : List CompiledRule)
    (e : WalkEntry) : Except LoadError (List CompiledRule) :=
  match e.err with
  | some err => .error (.walk err)
  | none =>
    if e.IsDir then .ok rules
    else if !HasSuffix e.Name ".yaml" && !HasSuffix e.Name ".yml" then .ok rules
    else
      match e.ReadFile with
      | .error err => .error (.reading e.path err)
      | .ok data =>
        match Unmarshal data with
        | .error err => .error (.parsing e.path err)
        | .ok rf =>
          match CompileRule Compile rf with
          | .error err => .error (.compiling e.path err)
          | .ok compiled => .ok (rules ++ [compiled])

/-- The walk: the function is called on the entries in order, and the first error it
returns ends the walk. -/
def walkDir (Compile : RegexpCompile) (Unmarshal : RuleUnmarshal) :
    List WalkEntry → List CompiledRule → Except LoadError (List CompiledRule)
  | [], rules => .ok rules
  | e :: rest, rules =>
    match walkFn Compile Unmarshal rules e with
    | .error err => .error err
    | .ok rules1 => walkDir Compile Unmarshal rest rules1

/-- The function `LoadRules`, on the entries that the walk of `dir` goes through. -/
def LoadRules (Compile : RegexpCompile) (Unmarshal : RuleUnmarshal) (dir : String)
    (entries : List WalkEntry) : Except LoadError (List CompiledRule) :=
  match walkDir Compile Unmarshal entries [] with
  | .error err => .error (.walking dir err)
  | .ok rules => .ok rules

/-- The entry of the walk for a rule file that is read without error. -/
def ruleFileEntry (path name : String) (data : Bytes) : WalkEntry :=
  { path := path, err := none, IsDir := false, Name := name, ReadFile := .ok data }

/-- An entry of the walk is the rule file of a description: a file named `*.yaml` or
`*.yml` that is read without error and that `yaml.Unmarshal` parses to the description. -/
def holdsRule (Unmarshal : RuleUnmarshal) (e : WalkEntry) (rf : RuleFile) : Prop :=
  e.err = none ∧ e.IsDir = false ∧
    (HasSuffix e.Name ".yaml" = true ∨ HasSuffix e.Name ".yml" = true) ∧
    ∃ data, e.ReadFile = .ok data ∧ Unmarshal data = .ok rf

/-- An entry of the walk that `LoadRules` passes over: a directory, or a file whose
name ends neither in `.yaml` nor in `.yml`, reached without error. -/
def skipsEntry (e : WalkEntry) : Prop :=
  e.err = none ∧
    (e.IsDir = true ∨ (HasSuffix e.Name ".yaml" = false ∧ HasSuffix e.Name ".yml" = false))

/-- The rule descriptions found by a walk, in order: the walk goes through directories
and other files, which it passes over, and through the rule files of the descriptions. -/
inductive walkFinds (Unmarshal : RuleUnmarshal) : List WalkEntry → List RuleFile → Prop where
  | done : walkFinds Unmarshal [] []
  | pass {e : WalkEntry} {es : List WalkEntry} {rfs : List RuleFile} :
      skipsEntry e → walkFinds Unmarshal es rfs → walkFinds Unmarshal (e :: es) rfs
  | file {e : WalkEntry} {rf : RuleFile} {es : List WalkEntry} {rfs : List RuleFile} :
      holdsRule Unmarshal e rf → walkFinds Unmarshal es rfs →
      walkFinds Unmarshal (e :: es) (rf :: rfs)

/-- The entry of the walk for a directory. -/
def dirEntry (path name : String) : WalkEntry :=
  { path := path, err := none, IsDir := true, Name := name, ReadFile := .error "is a directory" }

/-! ## Numbers as text -/

/-- The natural number that the digits of a number write, most significant first; the
magnitude of the number is `mantissa × 10 ^ (dp - nd)`, with `nd` the number of digits. -/
def Number.mantissa (n : Number) : Nat := Nat.ofDigits 10 n.d.reverse

/-- The decimal numeral of a natural number. -/
def natText (m : Nat) : String :=
  if m = 0 then "0" else String.mk ((Nat.digits 10 m).reverse.map digitByte)

/-- The first `k` decimals of the quotient `m / 10 ^ k`: the decimal of rank `i + 1` is
the last digit of the integer part of `m / 10 ^ (k - 1 - i)`. -/
def fracText (m k : Nat) : String :=
  String.mk ((List.range k).map fun i => digitByte (m / 10 ^ (k - 1 - i) % 10))

/-- The decimal textual form of a number, from its value: the sign, the numeral of the
integer part and, when the value `mantissa / 10 ^ k` has `k > 0` decimals, a point and
these decimals; no exponent. -/
def decimalForm (n : Number) : String :=
  let sign := if n.neg then "-" else ""
  let nd : Int := n.d.length
  if nd ≤ n.dp then sign ++ natText (n.mantissa * 10 ^ (n.dp - nd).toNat)
  else
    sign ++ natText (n.mantissa / 10 ^ (nd - n.dp).toNat) ++ "." ++
      fracText n.mantissa (nd - n.dp).toNat

/-- The digit lists that `strconv` produces: decimal digits, the first one not zero, and
`dp = 0` for the number zero, which has no digit. -/
def Number.wellFormed (n : Number) : Bool :=
  n.d.all (fun x => decide (x < 10)) && (n.d.head? != some 0) && (!n.d.isEmpty || n.dp == 0)

/-! ## Field resolution -/

theorem mapIndex_eq_lookup (m : List (String × Value)) (key : String) :
    mapIndex m key = m.lookup key := by
  induction m with
  | nil => rfl
  | cons p rest ih =>
    obtain ⟨k, v⟩ := p
    by_cases h : k = key
    · subst h
      simp [mapIndex, List.lookup]
    · have h2 : (key == k) = false := by
        simpa using fun h3 : key = k => h h3.symm
      simp [mapIndex, List.lookup, h, h2, ih]

theorem getNestedFieldLoop_eq_foldlM (path : List String) (current : Value) :
    getNestedFieldLoop current path = (path.foldlM refStep current).getD .null := by
  induction path generalizing current with
  | nil => rfl
  | cons key rest ih =>
    cases current with
    | obj m =>
      simp only [getNestedFieldLoop, List.foldlM, refStep, ← mapIndex_eq_lookup]
      cases h : mapIndex m key with
      | none => simp
      | some next => simpa using ih next
    | null => simp [getNestedFieldLoop, List.foldlM, refStep]
    | bool b => simp [getNestedFieldLoop, List.foldlM, refStep]
    | num n => simp [getNestedFieldLoop, List.foldlM, refStep]
    | str s => simp [getNestedFieldLoop, List.foldlM, refStep]
    | arr xs => simp [getNestedFieldLoop, List.foldlM, refStep]

theorem getNestedField_eq_refWalk (data : Event) (path : List String) :
    getNestedField data path = (refWalk data path).getD .null :=
  getNestedFieldLoop_eq_foldlM path (.obj data)

/-- C1: `getNestedField` equals the reference walk of the specification, absent being
`nil`: on every document and every path it returns the value the walk reaches, and `nil`
when the walk is absent. On the path `[a, b]` (the split of `a.b`) it returns `"x"` over
`{a: {b: "x", c: "y"}}`, `nil` over `{a: {c: "y"}}` and `nil` over `{a: "scalar"}`. -/
theorem C1_getNestedField_refines_walk :
    (∀ (data : Event) (path : List String),
      getNestedField data path = (refWalk data path).getD .null) ∧
    Split "a.b" = ["a", "b"] ∧
    getNestedField [("a", .obj [("b", .str "x"), ("c", .str "y")])] ["a", "b"] = .str "x" ∧
    getNestedField [("a", .obj [("c", .str "y")])] ["a", "b"] = .null ∧
    getNestedField [("a", .str "scalar")] ["a", "b"] = .null :=
  ⟨getNestedField_eq_refWalk, by decide, by rfl, by rfl, by rfl⟩

/-! ## Leaf conditions -/

theorem compileCondition_equals_leaf (Compile : RegexpCompile) (F T R : String)
    (hF : F ≠ "") (hT : T ≠ "") :
    compileCondition Compile (.mk F T R [] []) = .ok (equalsMatcher (Split F) T) := by
  simp [compileCondition, hF, hT]

theorem compileCondition_regex_leaf (Compile : RegexpCompile) (F P : String) (re : Regexp)
    (hF : F ≠ "") (hP : P ≠ "") (hre : Compile P = .ok re) :
    compileCondition Compile (.mk F "" P [] []) = .ok (regexMatcher (Split F) re) := by
  simp [compileCondition, hF, hP, hre]

/-- What a condition without and- and or-children compiles to, when it compiles. -/
theorem compileCondition_leaf_cases (Compile : RegexpCompile) (c : Condition) (m : Matcher)
    (hAnd : c.And = []) (hOr : c.Or = []) (hm : compileCondition Compile c = .ok m) :
    m = equalsMatcher (Split c.Field) c.Equals ∨
      ∃ re, m = regexMatcher (Split c.Field) re := by
  obtain ⟨F, E, R, A, O⟩ := c
  simp only [Condition.And, Condition.Or] at hAnd hOr
  subst hAnd hOr
  simp only [Condition.Field, Condition.Equals]
  by_cases hF : F = ""
  · simp [compileCondition, hF] at hm
  · by_cases hE : E = ""
    · by_cases hR : R = ""
      · simp [compileCondition, hF, hE, hR] at hm
      · cases hre : Compile R with
        | error err => simp [compileCondition, hF, hE, hR, hre] at hm
        | ok re =>
          simp [compileCondition, hF, hE, hR, hre] at hm
          exact Or.inr ⟨re, hm.symm⟩
    · simp [compileCondition, hF, hE] at hm
      exact Or.inl hm.symm

theorem equalsMatcher_of_nil (path : List String) (T : String) (event : Event)
    (h : (getNestedField event path).isNil = true) :
    equalsMatcher path T event = some false := by
  simp [equalsMatcher, h]

theorem regexMatcher_of_nil (path : List String) (re : Regexp) (event : Event)
    (h : (getNestedField event path).isNil = true) :
    regexMatcher path re event = some false := by
  simp [regexMatcher, h]

/-- A compiled leaf is false on an event in which `getNestedField` gives `nil`. -/
theorem leaf_false_of_nil (Compile : RegexpCompile) (c : Condition) (m : Matcher)
    (event : Event) (hAnd : c.And = []) (hOr : c.Or = [])
    (hm : compileCondition Compile c = .ok m)
    (h : (getNestedField event (Split c.Field)).isNil = true) : m event = some false := by
  rcases compileCondition_leaf_cases Compile c m hAnd hOr hm with rfl | ⟨re, rfl⟩
  · exact equalsMatcher_of_nil _ _ _ h
  · exact regexMatcher_of_nil _ _ _ h

/-- C2, counterexample: in `{"f": null}` the path of `f` resolves to the value null,
whose `%v` form is `<nil>`, and the Equals leaf on `f` with target `<nil>` returns false. -/
theorem C2_counterexample_null_value :
    refWalk [("f", .null)] (Split "f") = some .null ∧
    Sprint .null = "<nil>" ∧
    ∃ m, compileCondition literalCompile (.mk "f" "<nil>" "" [] []) = .ok m ∧
      m [("f", .null)] = some false :=
  ⟨by rfl, by decide, equalsMatcher (Split "f") "<nil>", by rfl, by decide⟩

/-- C2, amended: an Equals leaf with field `F` and target `T`, on an event in which the
path of `F` resolves to a value `v` that is not null, compiles to a predicate that
returns true exactly when the `%v` form of `v` is equal to `T`, and false otherwise.
Field `type` with target `nmap` matches `{"type": "nmap", "target": "example.com"}` and
does not match `{"type": "nikto"}`. -/
theorem C2_equals_leaf_compares_stringified (Compile : RegexpCompile) :
    (∀ (F T R : String) (event : Event) (v : Value), F ≠ "" → T ≠ "" →
      refWalk event (Split F) = some v → v.isNil = false →
      ∃ m, compileCondition Compile (.mk F T R [] []) = .ok m ∧
        (m event = some true ↔ Sprint v = T) ∧
        (m event = some false ↔ Sprint v ≠ T)) ∧
    (∃ m, compileCondition Compile (.mk "type" "nmap" "" [] []) = .ok m ∧
      m [("type", .str "nmap"), ("target", .str "example.com")] = some true ∧
      m [("type", .str "nikto")] = some false) := by
  refine ⟨?_, ?_⟩
  · intro F T R event v hF hT hwalk hv
    have hget : getNestedField event (Split F) = v := by
      rw [getNestedField_eq_refWalk, hwalk]
      rfl
    refine ⟨_, compileCondition_equals_leaf Compile F T R hF hT, ?_, ?_⟩ <;>
      simp [equalsMatcher, hget, hv]
  · refine ⟨_, compileCondition_equals_leaf Compile "type" "nmap" "" (by decide) (by decide),
      by decide, by decide⟩

/-- Witness of C2 on the rule of `TestEqualsMatch`. -/
theorem C2_equals_leaf_witness :
    ∃ m, compileCondition literalCompile (.mk "type" "nmap" "" [] []) = .ok m ∧
      (m [("type", .str "nmap")] = some true ↔ Sprint (.str "nmap") = "nmap") ∧
      (m [("type", .str "nmap")] = some false ↔ Sprint (.str "nmap") ≠ "nmap") :=
  (C2_equals_leaf_compares_stringified literalCompile).1 "type" "nmap" ""
    [("type", .str "nmap")] (.str "nmap") (by decide) (by decide) (by rfl) (by rfl)

/-- C3, counterexample: in `{"f": null}` the path of `f` resolves to the value null,
whose `%v` form `<nil>` has a match of the pattern `nil`, and the Regex leaf on `f` with
this pattern returns false. -/
theorem C3_counterexample_null_value :
    refWalk [("f", .null)] (Split "f") = some .null ∧
    ∃ re m, literalCompile "nil" = .ok re ∧ re.MatchString (Sprint .null) = true ∧
      compileCondition literalCompile (.mk "f" "" "nil" [] []) = .ok m ∧
      m = regexMatcher (Split "f") re ∧ m [("f", .null)] = some false :=
  ⟨by rfl, literalRegexp false "nil".data, regexMatcher (Split "f") (literalRegexp false "nil".data),
    by rfl, by decide, by rfl, rfl, by rfl⟩

/-- C3, amended: a Regex leaf with field `F` and a pattern `P` that `regexp.Compile`
accepts as `re`, on an event in which the path of `F` resolves to a value `v` that is not
null, compiles to a predicate that returns `re.MatchString` of the `%v` form of `v`: the
search of `MatchString` for a match anywhere in the string, with no anchoring added. With
a `re` for `(?i)directory traversal` that matches the first finding and not the second,
the leaf matches `Possible Directory Traversal (CVE-2011-0966)` and not
`X-Frame-Options header not present`. -/
theorem C3_regex_leaf_searches_stringified (Compile : RegexpCompile) :
    (∀ (F P : String) (re : Regexp) (event : Event) (v : Value), F ≠ "" → P ≠ "" →
      Compile P = .ok re → refWalk event (Split F) = some v → v.isNil = false →
      ∃ m, compileCondition Compile (.mk F "" P [] []) = .ok m ∧
        m event = some (re.MatchString (Sprint v))) ∧
    (∀ re : Regexp, Compile "(?i)directory traversal" = .ok re →
      re.MatchString "Possible Directory Traversal (CVE-2011-0966)" = true →
      re.MatchString "X-Frame-Options header not present" = false →
      ∃ m, compileCondition Compile (.mk "finding" "" "(?i)directory traversal" [] []) = .ok m ∧
        m [("finding", .str "Possible Directory Traversal (CVE-2011-0966)")] = some true ∧
        m [("finding", .str "X-Frame-Options header not present")] = some false) := by
  refine ⟨?_, ?_⟩
  · intro F P re event v hF hP hre hwalk hv
    have hget : getNestedField event (Split F) = v := by
      rw [getNestedField_eq_refWalk, hwalk]
      rfl
    refine ⟨_, compileCondition_regex_leaf Compile F P re hF hP hre, ?_⟩
    simp [regexMatcher, hget, hv]
  · intro re hre h1 h2
    refine ⟨_, compileCondition_regex_leaf Compile "finding" _ re (by decide) (by decide) hre,
      ?_, ?_⟩
    · have hp : getNestedField
          [("finding", Value.str "Possible Directory Traversal (CVE-2011-0966)")]
          (Split "finding") = .str "Possible Directory Traversal (CVE-2011-0966)" := by rfl
      simp [regexMatcher, hp, Value.isNil, Sprint, h1]
    · have hp : getNestedField [("finding", Value.str "X-Frame-Options header not present")]
          (Split "finding") = .str "X-Frame-Options header not present" := by rfl
      simp [regexMatcher, hp, Value.isNil, Sprint, h2]

/-- Witness of C3 on the rule and the two events of `TestRegexMatch`, with the engine
`literalCompile`: the finding is a string, not null, and the match is found in its
middle. -/
theorem C3_regex_leaf_witness :
    (∃ m, compileCondition literalCompile
        (.mk "finding" "" "(?i)directory traversal" [] []) = .ok m ∧
      m [("finding", .str "Possible Directory Traversal (CVE-2011-0966)")] =
        some ((literalRegexp true "directory traversal".data).MatchString
          (Sprint (.str "Possible Directory Traversal (CVE-2011-0966)")))) ∧
    (∃ m, compileCondition literalCompile
        (.mk "finding" "" "(?i)directory traversal" [] []) = .ok m ∧
      m [("finding", .str "Possible Directory Traversal (CVE-2011-0966)")] = some true ∧
      m [("finding", .str "X-Frame-Options header not present")] = some false) :=
  ⟨(C3_regex_leaf_searches_stringified literalCompile).1 "finding" "(?i)directory traversal"
      (literalRegexp true "directory traversal".data)
      [("finding", .str "Possible Directory Traversal (CVE-2011-0966)")]
      (.str "Possible Directory Traversal (CVE-2011-0966)")
      (by decide) (by decide) (by rfl) (by rfl) (by rfl),
    (C3_regex_leaf_searches_stringified literalCompile).2
      (literalRegexp true "directory traversal".data) (by rfl) (by decide) (by decide)⟩

/-- C4: a compiled leaf (Equals or Regex), on an event in which the path of its field is
absent (the reference walk stops at a missing key or at a value that is not a mapping),
returns false, and does return. Field `nonexistent.deep.field` does not match
`{"type": "nmap"}`. -/
theorem C4_absent_field_no_match (Compile : RegexpCompile) :
    (∀ (c : Condition) (m : Matcher) (event : Event), c.And = [] → c.Or = [] →
      compileCondition Compile c = .ok m → refWalk event (Split c.Field) = none →
      m event = some false) ∧
    (∃ m, compileCondition Compile (.mk "nonexistent.deep.field" "anything" "" [] []) = .ok m ∧
      refWalk [("type", .str "nmap")] (Split "nonexistent.deep.field") = none ∧
      m [("type", .str "nmap")] = some false) := by
  refine ⟨?_, ?_⟩
  · intro c m event hAnd hOr hm habs
    refine leaf_false_of_nil Compile c m event hAnd hOr hm ?_
    rw [getNestedField_eq_refWalk, habs]
    rfl
  · exact ⟨_, compileCondition_equals_leaf Compile _ _ _ (by decide) (by decide),
      by rfl, by decide⟩

/-- Witness of C4 on the rule and the event of `TestMissingFieldNoMatch`. -/
theorem C4_absent_field_witness :
    equalsMatcher (Split "nonexistent.deep.field") "anything" [("type", .str "nmap")]
      = some false :=
  (C4_absent_field_no_match literalCompile).1
    (.mk "nonexistent.deep.field" "anything" "" [] []) _ [("type", .str "nmap")] rfl rfl
    (compileCondition_equals_leaf literalCompile _ _ _ (by decide) (by decide)) (by rfl)

/-! ## AND and OR groups -/

theorem compileCondition_of_and (Compile : RegexpCompile) (c : Condition) (h : c.And ≠ []) :
    compileCondition Compile c =
      match compileMatchers Compile c.And with
      | .error err => .error err
      | .ok matchers => .ok (andMatcher matchers) := by
  obtain ⟨F, E, R, A, O⟩ := c
  simp only [Condition.And] at h
  have hlen : A.length > 0 := List.length_pos.mpr h
  simp [compileCondition, hlen, Condition.And]

theorem compileCondition_of_or (Compile : RegexpCompile) (c : Condition) (hAnd : c.And = [])
    (h : c.Or ≠ []) :
    compileCondition Compile c =
      match compileMatchers Compile c.Or with
      | .error err => .error err
      | .ok matchers => .ok (orMatcher matchers) := by
  obtain ⟨F, E, R, A, O⟩ := c
  simp only [Condition.And, Condition.Or] at hAnd h
  subst hAnd
  have hlen : O.length > 0 := List.length_pos.mpr h
  simp [compileCondition, hlen, Condition.Or]

theorem compileMatchers_ok_iff (Compile : RegexpCompile) (cs : List Condition)
    (ms : List Matcher) :
    compileMatchers Compile cs = .ok ms ↔
      List.Forall₂ (fun c m => compileCondition Compile c = .ok m) cs ms := by
  induction cs generalizing ms with
  | nil =>
    constructor
    · intro h
      simp [compileMatchers] at h
      subst h
      exact List.Forall₂.nil
    · intro h
      cases h
      simp [compileMatchers]
  | cons c rest ih =>
    constructor
    · intro h
      rw [compileMatchers] at h
      cases hc : compileCondition Compile c with
      | error err => simp [hc] at h
      | ok m =>
        cases hr : compileMatchers Compile rest with
        | error err => simp [hc, hr] at h
        | ok ms1 =>
          simp [hc, hr] at h
          subst h
          exact List.Forall₂.cons hc ((ih ms1).mp hr)
    · intro h
      cases h with
      | cons hc hr =>
        rw [compileMatchers]
        simp [hc, (ih _).mpr hr]

theorem forall_mem_compiled (Compile : RegexpCompile) (P : Matcher → Prop)
    {cs : List Condition} {ms : List Matcher}
    (h : List.Forall₂ (fun c m => compileCondition Compile c = .ok m) cs ms) :
    (∀ m ∈ ms, P m) ↔ ∀ c ∈ cs, ∃ m, compileCondition Compile c = .ok m ∧ P m := by
  induction h with
  | nil => simp
  | cons hc _ ih => simp [ih, hc]

theorem exists_mem_compiled (Compile : RegexpCompile) (P : Matcher → Prop)
    {cs : List Condition} {ms : List Matcher}
    (h : List.Forall₂ (fun c m => compileCondition Compile c = .ok m) cs ms) :
    (∃ m ∈ ms, P m) ↔ ∃ c ∈ cs, ∃ m, compileCondition Compile c = .ok m ∧ P m := by
  induction h with
  | nil => simp
  | cons hc _ ih => simp [ih, hc]

theorem andMatcher_returns (ms : List Matcher) (event : Event)
    (h : ∀ m ∈ ms, ∃ b, m event = some b) : ∃ b, andMatcher ms event = some b := by
  induction ms with
  | nil => exact ⟨true, rfl⟩
  | cons m rest ih =>
    obtain ⟨b, hb⟩ := h m (List.mem_cons_self _ _)
    cases b with
    | false => exact ⟨false, by simp [andMatcher, hb]⟩
    | true =>
      obtain ⟨b2, hb2⟩ := ih fun m2 hm2 => h m2 (List.mem_cons_of_mem _ hm2)
      exact ⟨b2, by simp [andMatcher, hb, hb2]⟩

theorem orMatcher_returns (ms : List Matcher) (event : Event)
    (h : ∀ m ∈ ms, ∃ b, m event = some b) : ∃ b, orMatcher ms event = some b := by
  induction ms with
  | nil => exact ⟨false, rfl⟩
  | cons m rest ih =>
    obtain ⟨b, hb⟩ := h m (List.mem_cons_self _ _)
    cases b with
    | true => exact ⟨true, by simp [orMatcher, hb]⟩
    | false =>
      obtain ⟨b2, hb2⟩ := ih fun m2 hm2 => h m2 (List.mem_cons_of_mem _ hm2)
      exact ⟨b2, by simp [orMatcher, hb, hb2]⟩

theorem andMatcher_true_iff (ms : List Matcher) (event : Event) :
    andMatcher ms event = some true ↔ ∀ m ∈ ms, m event = some true := by
  induction ms with
  | nil => simp [andMatcher]
  | cons m rest ih =>
    rw [andMatcher]
    cases hm : m event with
    | none => simp [hm]
    | some b => cases b <;> simp [hm, ih]

theorem orMatcher_false_iff (ms : List Matcher) (event : Event) :
    orMatcher ms event = some false ↔ ∀ m ∈ ms, m event = some false := by
  induction ms with
  | nil => simp [orMatcher]
  | cons m rest ih =>
    rw [orMatcher]
    cases hm : m event with
    | none => simp [hm]
    | some b => cases b <;> simp [hm, ih]

theorem orMatcher_true_iff (ms : List Matcher) (event : Event)
    (h : ∀ m ∈ ms, ∃ b, m event = some b) :
    orMatcher ms event = some true ↔ ∃ m ∈ ms, m event = some true := by
  induction ms with
  | nil => simp [orMatcher]
  | cons m rest ih =>
    have ih2 := ih fun m2 hm2 => h m2 (List.mem_cons_of_mem _ hm2)
    obtain ⟨b, hb⟩ := h m (List.mem_cons_self _ _)
    rw [orMatcher]
    cases b <;> simp [hb, ih2]

theorem equalsMatcher_returns (path : List String) (T : String) (event : Event) :
    ∃ b, equalsMatcher path T event = some b := by
  unfold equalsMatcher
  simp only
  split <;> exact ⟨_, rfl⟩

theorem regexMatcher_returns (path : List String) (re : Regexp) (event : Event) :
    ∃ b, regexMatcher path re event = some b := by
  unfold regexMatcher
  simp only
  split <;> exact ⟨_, rfl⟩

mutual
/-- A compiled predicate returns a boolean on every event. -/
theorem compileCondition_returns (Compile : RegexpCompile) :
    ∀ (c : Condition) (m : Matcher), compileCondition Compile c = .ok m →
      ∀ event, ∃ b, m event = some b
  | .mk F E R A O, m, hm, event => by
    by_cases hA : A = []
    · by_cases hO : O = []
      · subst hA hO
        rcases compileCondition_leaf_cases Compile (.mk F E R [] []) m rfl rfl hm with
          rfl | ⟨re, rfl⟩
        · exact equalsMatcher_returns _ _ _
        · exact regexMatcher_returns _ _ _
      · subst hA
        rw [compileCondition_of_or Compile (.mk F E R [] O) rfl hO] at hm
        simp only [Condition.Or] at hm
        cases hms : compileMatchers Compile O with
        | error err => simp [hms] at hm
        | ok ms =>
          simp [hms] at hm
          subst hm
          exact orMatcher_returns ms event fun m2 hm2 =>
            compileMatchers_returns Compile O ms hms m2 hm2 event
    · rw [compileCondition_of_and Compile (.mk F E R A O) hA] at hm
      simp only [Condition.And] at hm
      cases hms : compileMatchers Compile A with
      | error err => simp [hms] at hm
      | ok ms =>
        simp [hms] at hm
        subst hm
        exact andMatcher_returns ms event fun m2 hm2 =>
          compileMatchers_returns Compile A ms hms m2 hm2 event
/-- Every predicate of a compiled list of children returns a boolean on every event. -/
theorem compileMatchers_returns (Compile : RegexpCompile) :
    ∀ (cs : List Condition) (ms : List Matcher), compileMatchers Compile cs = .ok ms →
      ∀ m ∈ ms, ∀ event, ∃ b, m event = some b
  | [], ms, hms, m, hmem, _ => by
    simp [compileMatchers] at hms
    subst hms
    simp at hmem
  | c :: rest, ms, hms, m, hmem, event => by
    rw [compileMatchers] at hms
    cases hc : compileCondition Compile c with
    | error err => simp [hc] at hms
    | ok m1 =>
      cases hr : compileMatchers Compile rest with
      | error err => simp [hc, hr] at hms
      | ok ms1 =>
        simp [hc, hr] at hms
        subst hms
        rcases List.mem_cons.mp hmem with rfl | hmem2
        · exact compileCondition_returns Compile c m hc event
        · exact compileMatchers_returns Compile rest ms1 hr m hmem2 event
end

/-- The and-children of a compiled AND group compile, and the group is their
`andMatcher`. -/
theorem and_group_compiled (Compile : RegexpCompile) (c : Condition) (m : Matcher)
    (hAnd : c.And ≠ []) (hm : compileCondition Compile c = .ok m) :
    ∃ ms, compileMatchers Compile c.And = .ok ms ∧ m = andMatcher ms := by
  rw [compileCondition_of_and Compile c hAnd] at hm
  cases hms : compileMatchers Compile c.And with
  | error err => simp [hms] at hm
  | ok ms =>
    simp [hms] at hm
    exact ⟨ms, rfl, hm.symm⟩

/-- The or-children of a compiled OR group compile, and the group is their
`orMatcher`. -/
theorem or_group_compiled (Compile : RegexpCompile) (c : Condition) (m : Matcher)
    (hAnd : c.And = []) (hOr : c.Or ≠ []) (hm : compileCondition Compile c = .ok m) :
    ∃ ms, compileMatchers Compile c.Or = .ok ms ∧ m = orMatcher ms := by
  rw [compileCondition_of_or Compile c hAnd hOr] at hm
  cases hms : compileMatchers Compile c.Or with
  | error err => simp [hms] at hm
  | ok ms =>
    simp [hms] at hm
    exact ⟨ms, rfl, hm.symm⟩

/-- C5: a compiled condition with and-children returns a boolean on every event, and
returns true exactly when the compiled predicate of every and-child returns true; the
children are arbitrary conditions, so this holds at every depth. With regular
expressions that compile, `And[type=Nikto, Or[finding~sql injection,
finding~directory traversal]]` matches `{type: Nikto, finding: Possible SQL Injection}`
when the first pattern matches that finding, and does not match when `type` is `nmap`. -/
theorem C5_and_group_all_children (Compile : RegexpCompile) :
    (∀ (c : Condition) (m : Matcher) (event : Event), c.And ≠ [] →
      compileCondition Compile c = .ok m →
      (∃ b, m event = some b) ∧
      (m event = some true ↔
        ∀ sub ∈ c.And, ∃ ms, compileCondition Compile sub = .ok ms ∧ ms event = some true)) ∧
    (∀ re1 re2 : Regexp, Compile "(?i)sql injection" = .ok re1 →
      Compile "(?i)directory traversal" = .ok re2 →
      re1.MatchString "Possible SQL Injection" = true →
      ∃ m, compileCondition Compile
          (.mk "" "" "" [.mk "type" "Nikto" "" [] [],
            .mk "" "" "" [] [.mk "finding" "" "(?i)sql injection" [] [],
              .mk "finding" "" "(?i)directory traversal" [] []]] []) = .ok m ∧
        m [("type", .str "Nikto"), ("finding", .str "Possible SQL Injection")] = some true ∧
        m [("type", .str "nmap"), ("finding", .str "Possible SQL Injection")] = some false) := by
  refine ⟨?_, ?_⟩
  · intro c m event hAnd hm
    obtain ⟨ms, hms, rfl⟩ := and_group_compiled Compile c m hAnd hm
    refine ⟨compileCondition_returns Compile c _ hm event, ?_⟩
    rw [andMatcher_true_iff]
    exact forall_mem_compiled Compile (fun m => m event = some true)
      ((compileMatchers_ok_iff Compile _ _).mp hms)
  · intro re1 re2 h1 h2 hmatch
    have hp : getNestedField
        [("type", Value.str "Nikto"), ("finding", Value.str "Possible SQL Injection")]
        (Split "finding") = .str "Possible SQL Injection" := by rfl
    have ht : getNestedField
        [("type", Value.str "Nikto"), ("finding", Value.str "Possible SQL Injection")]
        (Split "type") = .str "Nikto" := by rfl
    have ht2 : getNestedField
        [("type", Value.str "nmap"), ("finding", Value.str "Possible SQL Injection")]
        (Split "type") = .str "nmap" := by rfl
    refine ⟨andMatcher [equalsMatcher (Split "type") "Nikto",
      orMatcher [regexMatcher (Split "finding") re1, regexMatcher (Split "finding") re2]],
      ?_, ?_, ?_⟩
    · simp [compileCondition, compileMatchers, h1, h2]
    · simp [andMatcher, orMatcher, equalsMatcher, regexMatcher, hp, ht, Value.isNil, Sprint,
        hmatch]
    · simp [andMatcher, equalsMatcher, ht2, Value.isNil, Sprint]

/-- Witness of C5 on the rule of `TestNestedAndOr`, with the engine `literalCompile`. -/
theorem C5_and_group_witness :
    ∃ m, compileCondition literalCompile
        (.mk "" "" "" [.mk "type" "Nikto" "" [] [],
          .mk "" "" "" [] [.mk "finding" "" "(?i)sql injection" [] [],
            .mk "finding" "" "(?i)directory traversal" [] []]] []) = .ok m ∧
      m [("type", .str "Nikto"), ("finding", .str "Possible SQL Injection")] = some true ∧
      m [("type", .str "nmap"), ("finding", .str "Possible SQL Injection")] = some false :=
  (C5_and_group_all_children literalCompile).2 (literalRegexp true "sql injection".data)
    (literalRegexp true "directory traversal".data) (by rfl) (by rfl) (by decide)

/-- C6: a compiled condition with no and-children and with or-children returns a boolean
on every event; it returns true exactly when the compiled predicate of at least one
or-child returns true, false exactly when every or-child returns false, and true whenever
the first or-child returns true, whatever the other children are. -/
theorem C6_or_group_some_child (Compile : RegexpCompile) (c : Condition) (m : Matcher)
    (event : Event) (hAnd : c.And = []) (hOr : c.Or ≠ [])
    (hm : compileCondition Compile c = .ok m) :
    (∃ b, m event = some b) ∧
    (m event = some true ↔
      ∃ sub ∈ c.Or, ∃ ms, compileCondition Compile sub = .ok ms ∧ ms event = some true) ∧
    (m event = some false ↔
      ∀ sub ∈ c.Or, ∃ ms, compileCondition Compile sub = .ok ms ∧ ms event = some false) ∧
    (∀ first m1, c.Or.head? = some first → compileCondition Compile first = .ok m1 →
      m1 event = some true → m event = some true) := by
  obtain ⟨ms, hms, rfl⟩ := or_group_compiled Compile c m hAnd hOr hm
  have hall := (compileMatchers_ok_iff Compile _ _).mp hms
  have htrue : orMatcher ms event = some true ↔
      ∃ sub ∈ c.Or, ∃ ms, compileCondition Compile sub = .ok ms ∧ ms event = some true := by
    rw [orMatcher_true_iff ms event fun m2 hm2 =>
      compileMatchers_returns Compile _ ms hms m2 hm2 event]
    exact exists_mem_compiled Compile (fun m => m event = some true) hall
  refine ⟨compileCondition_returns Compile c _ hm event, htrue, ?_, ?_⟩
  · rw [orMatcher_false_iff]
    exact forall_mem_compiled Compile (fun m => m event = some false) hall
  · intro first m1 hfirst hm1 htrue1
    exact htrue.mpr ⟨first, List.mem_of_mem_head? hfirst, m1, hm1, htrue1⟩

/-- Witness of C6 on the rule of `TestOrCondition` and the event `{"type": "nmap"}`. -/
theorem C6_or_group_witness :
    orMatcher [equalsMatcher (Split "type") "nmap", equalsMatcher (Split "type") "Nikto"]
      [("type", .str "nmap")] = some true :=
  (C6_or_group_some_child literalCompile
    (.mk "" "" "" [] [.mk "type" "nmap" "" [] [], .mk "type" "Nikto" "" [] []])
    (orMatcher [equalsMatcher (Split "type") "nmap", equalsMatcher (Split "type") "Nikto"])
    [("type", .str "nmap")] rfl (by simp [Condition.Or])
    (by simp [compileCondition, compileMatchers])).2.2.2
    (.mk "type" "nmap" "" [] []) (equalsMatcher (Split "type") "nmap") rfl
    (by simp [compileCondition]) (by decide)

/-! ## When compilation succeeds -/

theorem compileMatchers_isOk_iff (Compile : RegexpCompile) (cs : List Condition) :
    (compileMatchers Compile cs).isOk = true ↔
      ∀ sub ∈ cs, (compileCondition Compile sub).isOk = true := by
  induction cs with
  | nil => simp [compileMatchers, Except.isOk, Except.toBool]
  | cons c rest ih =>
    rw [compileMatchers]
    cases hc : compileCondition Compile c with
    | error err => simp [Except.isOk, Except.toBool, hc]
    | ok m =>
      cases hr : compileMatchers Compile rest with
      | error err =>
        rw [hr] at ih
        simp only [List.mem_cons, forall_eq_or_imp, hc, ← ih]
        simp [Except.isOk, Except.toBool]
      | ok ms =>
        rw [hr] at ih
        simp only [List.mem_cons, forall_eq_or_imp, hc, ← ih]
        simp [Except.isOk, Except.toBool]

/-- The recursion of the compile rules: which conditions compile. -/
theorem compileCondition_isOk_iff (Compile : RegexpCompile) (c : Condition) :
    (compileCondition Compile c).isOk = true ↔
      (c.And ≠ [] ∧ ∀ sub ∈ c.And, (compileCondition Compile sub).isOk = true) ∨
      (c.And = [] ∧ c.Or ≠ [] ∧ ∀ sub ∈ c.Or, (compileCondition Compile sub).isOk = true) ∨
      (c.And = [] ∧ c.Or = [] ∧ c.Field ≠ "" ∧
        (c.Equals ≠ "" ∨ (c.Regex ≠ "" ∧ (Compile c.Regex).isOk = true))) := by
  by_cases hA : c.And = []
  · by_cases hO : c.Or = []
    · obtain ⟨F, E, R, A, O⟩ := c
      simp only [Condition.And, Condition.Or] at hA hO
      subst hA hO
      simp only [Condition.And, Condition.Or, Condition.Field, Condition.Equals,
        Condition.Regex, ne_eq, not_true_eq_false, false_and, true_and, false_or]
      by_cases hF : F = ""
      · simp [compileCondition, hF, Except.isOk, Except.toBool]
      · by_cases hE : E = ""
        · by_cases hR : R = ""
          · simp [compileCondition, hF, hE, hR, Except.isOk, Except.toBool]
          · cases hre : Compile R <;>
              simp [compileCondition, hF, hE, hR, hre, Except.isOk, Except.toBool]
        · simp [compileCondition, hF, hE, Except.isOk, Except.toBool]
    · rw [compileCondition_of_or Compile c hA hO]
      have key := compileMatchers_isOk_iff Compile c.Or
      cases hms : compileMatchers Compile c.Or with
      | error err =>
        rw [hms] at key
        simp only [hA, hO, ne_eq, not_true_eq_false, false_and, true_and, false_or,
          not_false_eq_true, or_false, ← key]
        simp [Except.isOk, Except.toBool]
      | ok ms =>
        rw [hms] at key
        simp only [hA, hO, ne_eq, not_true_eq_false, false_and, true_and, false_or,
          not_false_eq_true, or_false, ← key]
        simp [Except.isOk, Except.toBool]
  · rw [compileCondition_of_and Compile c hA]
    have key := compileMatchers_isOk_iff Compile c.And
    cases hms : compileMatchers Compile c.And with
    | error err =>
      rw [hms] at key
      simp only [hA, ne_eq, not_false_eq_true, true_and, false_and, or_false, ← key]
      simp [Except.isOk, Except.toBool]
    | ok ms =>
      rw [hms] at key
      simp only [hA, ne_eq, not_false_eq_true, true_and, false_and, or_false, ← key]
      simp [Except.isOk, Except.toBool]

theorem CompileRule_isOk (Compile : RegexpCompile) (rf : RuleFile) :
    (CompileRule Compile rf).isOk = (compileCondition Compile rf.Match).isOk := by
  unfold CompileRule
  cases compileCondition Compile rf.Match <;> rfl

/-- C7: compilation succeeds exactly by the recursion of the compile rules: a condition
compiles if and only if it has and-children and all of them compile, or else it has
or-children and all of them compile, or else it has a field and either an equals value or
a regex pattern that `regexp.Compile` accepts; and `CompileRule` succeeds exactly when
the match condition compiles. So a rule fails when its condition has neither field,
and-children nor or-children, when it is a leaf with neither equals nor regex, and when a
child of the group that is compiled fails. -/
theorem C7_compile_succeeds_iff_well_formed (Compile : RegexpCompile) :
    (∀ c : Condition, (compileCondition Compile c).isOk = true ↔
      (c.And ≠ [] ∧ ∀ sub ∈ c.And, (compileCondition Compile sub).isOk = true) ∨
      (c.And = [] ∧ c.Or ≠ [] ∧ ∀ sub ∈ c.Or, (compileCondition Compile sub).isOk = true) ∨
      (c.And = [] ∧ c.Or = [] ∧ c.Field ≠ "" ∧
        (c.Equals ≠ "" ∨ (c.Regex ≠ "" ∧ (Compile c.Regex).isOk = true)))) ∧
    (∀ rf : RuleFile, (CompileRule Compile rf).isOk = (compileCondition Compile rf.Match).isOk) ∧
    (∀ rf : RuleFile, rf.Match.Field = "" → rf.Match.And = [] → rf.Match.Or = [] →
      (CompileRule Compile rf).isOk = false) ∧
    (∀ rf : RuleFile, rf.Match.And = [] → rf.Match.Or = [] → rf.Match.Equals = "" →
      rf.Match.Regex = "" → (CompileRule Compile rf).isOk = false) ∧
    (∀ (rf : RuleFile) (sub : Condition),
      (rf.Match.And ≠ [] ∧ sub ∈ rf.Match.And) ∨ (rf.Match.And = [] ∧ sub ∈ rf.Match.Or) →
      (compileCondition Compile sub).isOk = false → (CompileRule Compile rf).isOk = false) := by
  refine ⟨compileCondition_isOk_iff Compile, CompileRule_isOk Compile, ?_, ?_, ?_⟩
  · intro rf hF hA hO
    rw [CompileRule_isOk, Bool.eq_false_iff, ne_eq, compileCondition_isOk_iff]
    simp [hF, hA, hO]
  · intro rf hA hO hE hR
    rw [CompileRule_isOk, Bool.eq_false_iff, ne_eq, compileCondition_isOk_iff]
    simp [hA, hO, hE, hR]
  · intro rf sub hsub hfail
    rw [CompileRule_isOk, Bool.eq_false_iff, ne_eq, compileCondition_isOk_iff]
    rcases hsub with ⟨hA, hmem⟩ | ⟨hA, hmem⟩
    · simp only [hA, ne_eq, not_false_eq_true, true_and, false_and, or_false]
      intro hall
      simp [hall sub hmem] at hfail
    · have hO : rf.Match.Or ≠ [] := List.ne_nil_of_mem hmem
      simp only [hA, hO, ne_eq, not_true_eq_false, false_and, true_and, false_or,
        not_false_eq_true, or_false]
      intro hall
      simp [hall sub hmem] at hfail

/-- Witness of C7 on the condition of `TestNoFieldOrLogicError`, which has neither
field, and-children nor or-children. -/
theorem C7_compile_fails_witness :
    (CompileRule literalCompile
      { Name := "test-empty", Description := "", Severity := "", NATSSubject := "test.subject",
        Compliance := noCompliance, Match := .mk "" "" "" [] [] }).isOk = false :=
  (C7_compile_succeeds_iff_well_formed literalCompile).2.2.1 _ rfl rfl rfl

/-! ## The shape of compiled conditions -/

/-- C9, counterexample: three conditions that compile although their root does not have
exactly one of the three forms: and-children together with or-children, and-children
together with a leaf (field and equals), and and-children together with a field. -/
theorem C9_counterexample_mixed_shapes_compile :
    ((compileCondition literalCompile
        (.mk "" "" "" [.mk "type" "nmap" "" [] []] [.mk "type" "nikto" "" [] []])).isOk = true ∧
      Condition.shapeCount
        (.mk "" "" "" [.mk "type" "nmap" "" [] []] [.mk "type" "nikto" "" [] []]) = 2) ∧
    ((compileCondition literalCompile
        (.mk "protocol" "tcp" "" [.mk "type" "nmap" "" [] []] [])).isOk = true ∧
      Condition.shapeCount (.mk "protocol" "tcp" "" [.mk "type" "nmap" "" [] []] []) = 2) ∧
    (compileCondition literalCompile
        (.mk "protocol" "" "" [.mk "type" "nmap" "" [] []] [])).isOk = true := by
  refine ⟨⟨by rfl, by decide⟩, ⟨by rfl, by decide⟩, by rfl⟩

theorem shapeCount_pos_of_isOk (Compile : RegexpCompile) (c : Condition)
    (h : (compileCondition Compile c).isOk = true) : 1 ≤ c.shapeCount := by
  rcases (compileCondition_isOk_iff Compile c).mp h with
    ⟨hA, _⟩ | ⟨_, hO, _⟩ | ⟨_, _, hF, hER⟩
  · have : c.And.isEmpty = false := by
      cases hc : c.And with
      | nil => exact absurd hc hA
      | cons a r => rfl
    simp only [Condition.shapeCount, this]
    split_ifs <;> first | omega | simp_all
  · have : c.Or.isEmpty = false := by
      cases hc : c.Or with
      | nil => exact absurd hc hO
      | cons a r => rfl
    simp only [Condition.shapeCount, this]
    split_ifs <;> first | omega | simp_all
  · have : c.leafSet = true := by
      rcases hER with hE | ⟨hR, _⟩
      · simp [Condition.leafSet, hF, hE]
      · simp [Condition.leafSet, hF, hR]
    simp only [Condition.shapeCount, this]
    split_ifs <;> omega

mutual
/-- Every node visited in a condition that compiles itself compiles. -/
theorem visited_isOk (Compile : RegexpCompile) :
    ∀ c : Condition, (compileCondition Compile c).isOk = true →
      ∀ n ∈ c.visited, (compileCondition Compile n).isOk = true
  | .mk F E R A O, h, n, hn => by
    rw [Condition.visited] at hn
    rcases List.mem_cons.mp hn with rfl | hn2
    · exact h
    · rcases (compileCondition_isOk_iff Compile (.mk F E R A O)).mp h with
        ⟨hA, hall⟩ | ⟨hA, hO, hall⟩ | ⟨hA, hO, _⟩
      · simp only [Condition.And] at hA hall
        have hlen : A.length > 0 := List.length_pos.mpr hA
        simp only [hlen, if_true] at hn2
        exact visitedList_isOk Compile A hall n hn2
      · simp only [Condition.And, Condition.Or] at hA hO hall
        subst hA
        have hlen : O.length > 0 := List.length_pos.mpr hO
        simp only [List.length_nil, gt_iff_lt, lt_self_iff_false, if_false, hlen,
          if_true] at hn2
        exact visitedList_isOk Compile O hall n hn2
      · simp only [Condition.And, Condition.Or] at hA hO
        subst hA hO
        simp at hn2
/-- Every node visited in a list of children that all compile itself compiles. -/
theorem visitedList_isOk (Compile : RegexpCompile) :
    ∀ cs : List Condition, (∀ sub ∈ cs, (compileCondition Compile sub).isOk = true) →
      ∀ n ∈ visitedList cs, (compileCondition Compile n).isOk = true
  | [], _, n, hn => by simp [visitedList] at hn
  | c :: rest, hall, n, hn => by
    rw [visitedList] at hn
    rcases List.mem_append.mp hn with h1 | h2
    · exact visited_isOk Compile c (hall c (List.mem_cons_self _ _)) n h1
    · exact visitedList_isOk Compile rest
        (fun sub hsub => hall sub (List.mem_cons_of_mem _ hsub)) n h2
end

/-- C9, amended: a condition compiles only if, at every node the compiler goes through
(the root, then the and-children of a node that has some, otherwise its or-children), at
least one of leaf fields set, and-children non-empty, or-children non-empty holds; a node
without and- and or-children whose field is empty, or that has neither equals nor regex,
fails compilation. -/
theorem C9_visited_nodes_have_a_shape (Compile : RegexpCompile) :
    (∀ c : Condition, (compileCondition Compile c).isOk = true →
      ∀ n ∈ c.visited, 1 ≤ n.shapeCount ∧ (n.And = [] → n.Or = [] → n.leafSet = true)) ∧
    (∀ c : Condition, c.And = [] → c.Or = [] → c.leafSet = false →
      (compileCondition Compile c).isOk = false) := by
  have leaf : ∀ c : Condition, c.And = [] → c.Or = [] →
      (compileCondition Compile c).isOk = true → c.leafSet = true := by
    intro c hA hO h
    rcases (compileCondition_isOk_iff Compile c).mp h with
      ⟨hA2, _⟩ | ⟨_, hO2, _⟩ | ⟨_, _, hF, hER⟩
    · exact absurd hA hA2
    · exact absurd hO hO2
    · rcases hER with hE | ⟨hR, _⟩
      · simp [Condition.leafSet, hF, hE]
      · simp [Condition.leafSet, hF, hR]
  refine ⟨?_, ?_⟩
  · intro c h n hn
    have hok := visited_isOk Compile c h n hn
    exact ⟨shapeCount_pos_of_isOk Compile n hok, fun hA hO => leaf n hA hO hok⟩
  · intro c hA hO hleaf
    rw [Bool.eq_false_iff]
    intro h
    rw [leaf c hA hO h] at hleaf
    exact absurd hleaf (by decide)

/-- Witness of C9 on the condition of `TestNestedAndOr`: its Equals leaf, a node the
compiler goes through, has a shape. -/
theorem C9_visited_nodes_witness :
    1 ≤ Condition.shapeCount (.mk "type" "Nikto" "" [] []) ∧
      ((Condition.mk "type" "Nikto" "" [] []).And = [] →
        (Condition.mk "type" "Nikto" "" [] []).Or = [] →
        (Condition.mk "type" "Nikto" "" [] []).leafSet = true) :=
  (C9_visited_nodes_have_a_shape literalCompile).1
    (.mk "" "" "" [.mk "type" "Nikto" "" [] [],
      .mk "" "" "" [] [.mk "finding" "" "(?i)sql injection" [] [],
        .mk "finding" "" "(?i)directory traversal" [] []]] [])
    (by rfl) (.mk "type" "Nikto" "" [] []) (by simp [Condition.visited, visitedList])

/-! ## The matching pipeline -/

/-- The loop of `processEvent`, over rules whose predicates return on the event, ends,
and adds to the counter the number of rules whose predicate is true. -/
theorem processEventLoop_matched {σ : Type} (Marshal : AlertMarshal) (nc : NATSClient σ)
    (event : Event) (rules : List CompiledRule) (run : Run σ)
    (h : ∀ r ∈ rules, ∃ b, r.Matcher event = some b) :
    ∃ out, processEventLoop Marshal nc event rules run = some out ∧
      out.matched = run.matched + rules.countP fun r => r.Matcher event == some true := by
  induction rules generalizing run with
  | nil => exact ⟨run, rfl, by simp⟩
  | cons rule rest ih =>
    have hrest : ∀ r ∈ rest, ∃ b, r.Matcher event = some b :=
      fun r hr => h r (List.mem_cons_of_mem _ hr)
    obtain ⟨b, hb⟩ := h rule (List.mem_cons_self _ _)
    cases b with
    | false =>
      obtain ⟨out, hout, hcount⟩ := ih run hrest
      refine ⟨out, ?_, ?_⟩
      · simp [processEventLoop, hb, hout]
      · simp [List.countP_cons, hb, hcount]
    | true =>
      rw [processEventLoop]
      simp only [hb]
      cases hM : Marshal
          { Rule := { Name := rule.Name, Description := rule.Description,
                      Severity := rule.Severity, Compliance := rule.Compliance },
            Event := event } with
      | error err =>
        obtain ⟨out, hout, hcount⟩ := ih
          { matched := run.matched + 1, conn := run.conn,
            alerts := run.alerts ++ [(rule.NATSSubject,
              { Rule := { Name := rule.Name, Description := rule.Description,
                          Severity := rule.Severity, Compliance := rule.Compliance },
                Event := event })],
            published := run.published,
            log := run.log ++ [.marshalError err] } hrest
        refine ⟨out, hout, ?_⟩
        simp [List.countP_cons, hb, hcount]
        omega
      | ok data =>
        simp only
        rcases hP : nc.Publish run.conn rule.NATSSubject data with ⟨conn, _ | err⟩
        · obtain ⟨out, hout, hcount⟩ := ih
            { matched := run.matched + 1, conn := conn,
              alerts := run.alerts ++ [(rule.NATSSubject,
                { Rule := { Name := rule.Name, Description := rule.Description,
                            Severity := rule.Severity, Compliance := rule.Compliance },
                  Event := event })],
              published := run.published ++ [(rule.NATSSubject, data)],
              log := run.log ++ [.matchedPublished rule.Name rule.NATSSubject] } hrest
          refine ⟨out, hout, ?_⟩
          simp [List.countP_cons, hb, hcount]
          omega
        · obtain ⟨out, hout, hcount⟩ := ih
            { matched := run.matched + 1, conn := conn,
              alerts := run.alerts ++ [(rule.NATSSubject,
                { Rule := { Name := rule.Name, Description := rule.Description,
                            Severity := rule.Severity, Compliance := rule.Compliance },
                  Event := event })],
              published := run.published ++ [(rule.NATSSubject, data)],
              log := run.log ++ [.publishError rule.NATSSubject err] } hrest
          refine ⟨out, hout, ?_⟩
          simp [List.countP_cons, hb, hcount]
          omega

/-- The predicate of a rule made by `CompileRule` returns a boolean on every event. -/
theorem CompileRule_returns (Compile : RegexpCompile) (rf : RuleFile) (r : CompiledRule)
    (h : CompileRule Compile rf = .ok r) (event : Event) : ∃ b, r.Matcher event = some b := by
  unfold CompileRule at h
  cases hc : compileCondition Compile rf.Match with
  | error err => simp [hc] at h
  | ok m =>
    simp [hc] at h
    subst h
    exact compileCondition_returns Compile rf.Match m hc event

/-- C10: on every event and every sequence of rules, each made by `CompileRule` or with a
predicate that returns on the event, `processEvent` returns the number of rules of the
whole sequence whose predicate is true on the event, whatever `json.Marshal` and
`Publish` answer. -/
theorem C10_processEvent_counts_matches {σ : Type} (Compile : RegexpCompile)
    (Marshal : AlertMarshal) (nc : NATSClient σ) (conn : σ) (event : Event)
    (rules : List CompiledRule)
    (h : ∀ r ∈ rules, (∃ rf, CompileRule Compile rf = .ok r) ∨ ∃ b, r.Matcher event = some b) :
    processEvent Marshal nc conn event rules =
      some (rules.countP fun r => r.Matcher event == some true) := by
  have hret : ∀ r ∈ rules, ∃ b, r.Matcher event = some b := by
    intro r hr
    rcases h r hr with ⟨rf, hrf⟩ | hb
    · exact CompileRule_returns Compile rf r hrf event
    · exact hb
  obtain ⟨out, hout, hcount⟩ := processEventLoop_matched Marshal nc event rules
    { matched := 0, conn := conn, alerts := [], published := [], log := [] } hret
  simp [processEvent, processEventRun, hout, hcount]

/-- Witness of C10: with `R1` matching `type=nmap` and `R2` matching `type=nikto`, both
made by `CompileRule`, the event `{"type": "nmap"}` gives 1, here with a `json.Marshal`
and a `Publish` that fail. -/
theorem C10_processEvent_witness :
    processEvent (fun _ => .error "unsupported value")
      ({ Publish := fun conn _ _ => (conn, some "connection closed") } : NATSClient Unit) ()
      [("type", .str "nmap")]
      [{ Name := "R1", Description := "", Severity := "", NATSSubject := "alerts.nmap",
         Compliance := noCompliance, Matcher := equalsMatcher (Split "type") "nmap" },
       { Name := "R2", Description := "", Severity := "", NATSSubject := "alerts.nikto",
         Compliance := noCompliance, Matcher := equalsMatcher (Split "type") "nikto" }]
      = some 1 :=
  (C10_processEvent_counts_matches literalCompile (fun _ => .error "unsupported value")
    ({ Publish := fun conn _ _ => (conn, some "connection closed") } : NATSClient Unit) ()
    [("type", .str "nmap")]
    [{ Name := "R1", Description := "", Severity := "", NATSSubject := "alerts.nmap",
       Compliance := noCompliance, Matcher := equalsMatcher (Split "type") "nmap" },
     { Name := "R2", Description := "", Severity := "", NATSSubject := "alerts.nikto",
       Compliance := noCompliance, Matcher := equalsMatcher (Split "type") "nikto" }]
    (by
      intro r hr
      simp only [List.mem_cons, List.mem_singleton, List.not_mem_nil, or_false] at hr
      rcases hr with rfl | rfl
      · exact Or.inl ⟨{ Name := "R1", Description := "", Severity := "",
                        NATSSubject := "alerts.nmap", Compliance := noCompliance,
                        Match := .mk "type" "nmap" "" [] [] }, rfl⟩
      · exact Or.inl ⟨{ Name := "R2", Description := "", Severity := "",
                        NATSSubject := "alerts.nikto", Compliance := noCompliance,
                        Match := .mk "type" "nikto" "" [] [] }, rfl⟩)).trans (by decide)

/-! ## The alerts of the pipeline -/

/-- What the loop of `processEvent` adds to a run, over rules whose predicates return on
the event: one alert per rule whose predicate is true, in order, and one call of
`Publish` per alert that `json.Marshal` serializes. -/
theorem processEventLoop_trace {σ : Type} (Marshal : AlertMarshal) (nc : NATSClient σ)
    (event : Event) (rules : List CompiledRule) (run : Run σ)
    (h : ∀ r ∈ rules, ∃ b, r.Matcher event = some b) :
    ∃ out, processEventLoop Marshal nc event rules run = some out ∧
      out.alerts = run.alerts ++ (rules.filter (matchesEvent event)).map (alertFor event) ∧
      out.published = run.published ++
        ((rules.filter (matchesEvent event)).map (alertFor event)).filterMap
          (publishCall Marshal) := by
  induction rules generalizing run with
  | nil => exact ⟨run, rfl, by simp, by simp⟩
  | cons rule rest ih =>
    have hrest : ∀ r ∈ rest, ∃ b, r.Matcher event = some b :=
      fun r hr => h r (List.mem_cons_of_mem _ hr)
    obtain ⟨b, hb⟩ := h rule (List.mem_cons_self _ _)
    cases b with
    | false =>
      obtain ⟨out, hout, halerts, hpub⟩ := ih run hrest
      have hno : matchesEvent event rule = false := by simp [matchesEvent, hb]
      refine ⟨out, ?_, ?_, ?_⟩
      · simp [processEventLoop, hb, hout]
      · simp [List.filter_cons, hno, halerts]
      · simp [List.filter_cons, hno, hpub]
    | true =>
      have hyes : matchesEvent event rule = true := by simp [matchesEvent, hb]
      rw [processEventLoop]
      simp only [hb]
      cases hM : Marshal
          { Rule := { Name := rule.Name, Description := rule.Description,
                      Severity := rule.Severity, Compliance := rule.Compliance },
            Event := event } with
      | error err =>
        have hcall : publishCall Marshal (alertFor event rule) = none := by
          simp [publishCall, alertFor, hM]
        obtain ⟨out, hout, halerts, hpub⟩ := ih
          { matched := run.matched + 1, conn := run.conn,
            alerts := run.alerts ++ [(rule.NATSSubject,
              { Rule := { Name := rule.Name, Description := rule.Description,
                          Severity := rule.Severity, Compliance := rule.Compliance },
                Event := event })],
            published := run.published,
            log := run.log ++ [.marshalError err] } hrest
        refine ⟨out, hout, ?_, ?_⟩
        · simp [List.filter_cons, hyes, halerts, alertFor]
        · simp [List.filter_cons, hyes, hpub, List.filterMap_cons, hcall]
      | ok data =>
        have hcall : publishCall Marshal (alertFor event rule) =
            some (rule.NATSSubject, data) := by
          simp [publishCall, alertFor, hM]
        simp only
        rcases hP : nc.Publish run.conn rule.NATSSubject data with ⟨conn, _ | err⟩
        · obtain ⟨out, hout, halerts, hpub⟩ := ih
            { matched := run.matched + 1, conn := conn,
              alerts := run.alerts ++ [(rule.NATSSubject,
                { Rule := { Name := rule.Name, Description := rule.Description,
                            Severity := rule.Severity, Compliance := rule.Compliance },
                  Event := event })],
              published := run.published ++ [(rule.NATSSubject, data)],
              log := run.log ++ [.matchedPublished rule.Name rule.NATSSubject] } hrest
          refine ⟨out, hout, ?_, ?_⟩
          · simp [List.filter_cons, hyes, halerts, alertFor]
          · simp [List.filter_cons, hyes, hpub, List.filterMap_cons, hcall]
        · obtain ⟨out, hout, halerts, hpub⟩ := ih
            { matched := run.matched + 1, conn := conn,
              alerts := run.alerts ++ [(rule.NATSSubject,
                { Rule := { Name := rule.Name, Description := rule.Description,
                            Severity := rule.Severity, Compliance := rule.Compliance },
                  Event := event })],
              published := run.published ++ [(rule.NATSSubject, data)],
              log := run.log ++ [.publishError rule.NATSSubject err] } hrest
          refine ⟨out, hout, ?_, ?_⟩
          · simp [List.filter_cons, hyes, halerts, alertFor]
          · simp [List.filter_cons, hyes, hpub, List.filterMap_cons, hcall]

/-- C11: on every event and every sequence of rules, each made by `CompileRule` or with a
predicate that returns on the event, the alerts `processEvent` builds and hands to
`json.Marshal` and `Publish` are, in rule order, one pair per rule whose predicate is
true on the event and none for the others: the subject of the rule, and its name,
description, severity and compliance tags with the event unchanged. The calls of
`Publish` are those of the alerts that `json.Marshal` serializes, in order, whether
earlier calls of `Publish` failed or not. -/
theorem C11_processEvent_emits_alerts {σ : Type} (Compile : RegexpCompile)
    (Marshal : AlertMarshal) (nc : NATSClient σ) (conn : σ) (event : Event)
    (rules : List CompiledRule)
    (h : ∀ r ∈ rules, (∃ rf, CompileRule Compile rf = .ok r) ∨ ∃ b, r.Matcher event = some b) :
    ∃ out, processEventRun Marshal nc conn event rules = some out ∧
      out.alerts = (rules.filter (matchesEvent event)).map (alertFor event) ∧
      out.published = out.alerts.filterMap (publishCall Marshal) ∧
      (∀ p ∈ out.alerts, p.2.Event = event) ∧
      ((∀ a, ∃ data, Marshal a = .ok data) → out.published.map Prod.fst =
        (rules.filter (matchesEvent event)).map fun r => r.NATSSubject) := by
  have hret : ∀ r ∈ rules, ∃ b, r.Matcher event = some b := by
    intro r hr
    rcases h r hr with ⟨rf, hrf⟩ | hb
    · exact CompileRule_returns Compile rf r hrf event
    · exact hb
  obtain ⟨out, hout, halerts, hpub⟩ := processEventLoop_trace Marshal nc event rules
    { matched := 0, conn := conn, alerts := [], published := [], log := [] } hret
  simp only [List.nil_append] at halerts hpub
  refine ⟨out, hout, halerts, by rw [hpub, halerts], ?_, ?_⟩
  · intro p hp
    rw [halerts] at hp
    obtain ⟨r, _, rfl⟩ := List.mem_map.mp hp
    rfl
  · intro hM
    rw [hpub]
    generalize rules.filter (matchesEvent event) = matching
    induction matching with
    | nil => rfl
    | cons r rest ih =>
      obtain ⟨data, hdata⟩ := hM (alertFor event r).2
      have hcall : publishCall Marshal (alertFor event r) = some (r.NATSSubject, data) := by
        unfold publishCall
        rw [hdata]
        rfl
      simp only [List.map_cons, List.filterMap_cons, hcall, ih]

/-- Witness of C11: with `R1` matching `type=nmap` and `R2` matching `type=nikto`, the
event `{"type": "nmap"}` gives the one alert of `R1`, sent to its subject, here with a
`Publish` that fails. -/
theorem C11_processEvent_witness :
    ∃ out, processEventRun (fun _ => .ok [])
        ({ Publish := fun conn _ _ => (conn, some "connection closed") } : NATSClient Unit) ()
        [("type", .str "nmap")]
        [{ Name := "R1", Description := "", Severity := "", NATSSubject := "alerts.nmap",
           Compliance := noCompliance, Matcher := equalsMatcher (Split "type") "nmap" },
         { Name := "R2", Description := "", Severity := "", NATSSubject := "alerts.nikto",
           Compliance := noCompliance, Matcher := equalsMatcher (Split "type") "nikto" }]
        = some out ∧
      out.alerts.map Prod.fst = ["alerts.nmap"] ∧ out.published = [("alerts.nmap", [])] := by
  obtain ⟨out, hout, halerts, hpub, _⟩ :=
    C11_processEvent_emits_alerts literalCompile (fun _ => .ok [])
      ({ Publish := fun conn _ _ => (conn, some "connection closed") } : NATSClient Unit) ()
      [("type", .str "nmap")]
      [{ Name := "R1", Description := "", Severity := "", NATSSubject := "alerts.nmap",
         Compliance := noCompliance, Matcher := equalsMatcher (Split "type") "nmap" },
       { Name := "R2", Description := "", Severity := "", NATSSubject := "alerts.nikto",
         Compliance := noCompliance, Matcher := equalsMatcher (Split "type") "nikto" }]
      (by
        intro r hr
        simp only [List.mem_cons, List.mem_singleton, List.not_mem_nil, or_false] at hr
        rcases hr with rfl | rfl
        · exact Or.inl ⟨{ Name := "R1", Description := "", Severity := "",
                          NATSSubject := "alerts.nmap", Compliance := noCompliance,
                          Match := .mk "type" "nmap" "" [] [] }, rfl⟩
        · exact Or.inl ⟨{ Name := "R2", Description := "", Severity := "",
                          NATSSubject := "alerts.nikto", Compliance := noCompliance,
                          Match := .mk "type" "nikto" "" [] [] }, rfl⟩)
  refine ⟨out, hout, ?_, ?_⟩
  · rw [halerts]
    rfl
  · rw [hpub, halerts]
    rfl

/-! ## The metadata of a compiled rule -/

/-- C12: for a rule description whose match condition compiles to `m`, `CompileRule`
returns a compiled rule with the name, description, severity, subject and compliance tags
of the description, each list of tags unchanged (an empty one stays empty), and with
`m` as its predicate. -/
theorem C12_CompileRule_keeps_metadata (Compile : RegexpCompile) (rf : RuleFile) (m : Matcher)
    (hm : compileCondition Compile rf.Match = .ok m) :
    ∃ r, CompileRule Compile rf = .ok r ∧
      r.Name = rf.Name ∧ r.Description = rf.Description ∧ r.Severity = rf.Severity ∧
      r.NATSSubject = rf.NATSSubject ∧ r.Compliance = rf.Compliance ∧
      (r.Compliance.PCIDSS = rf.Compliance.PCIDSS ∧ r.Compliance.GDPR = rf.Compliance.GDPR ∧
        r.Compliance.HIPAA = rf.Compliance.HIPAA ∧ r.Compliance.NIST = rf.Compliance.NIST ∧
        r.Compliance.MITRE = rf.Compliance.MITRE ∧ r.Compliance.TSC = rf.Compliance.TSC ∧
        r.Compliance.GPG13 = rf.Compliance.GPG13) ∧
      r.Matcher = m := by
  refine ⟨{ Name := rf.Name, Description := rf.Description, Severity := rf.Severity,
            NATSSubject := rf.NATSSubject, Compliance := rf.Compliance, Matcher := m },
    ?_, rfl, rfl, rfl, rfl, rfl, ⟨rfl, rfl, rfl, rfl, rfl, rfl, rfl⟩, rfl⟩
  simp [CompileRule, hm]

/-- Witness of C12 on the rule of `TestComplianceOptional`, which has no compliance
tags. -/
theorem C12_CompileRule_witness :
    ∃ r, CompileRule literalCompile
        { Name := "test-no-compliance", Description := "", Severity := "",
          NATSSubject := "test.subject", Compliance := noCompliance,
          Match := .mk "type" "nmap" "" [] [] } = .ok r ∧
      r.Name = "test-no-compliance" ∧ r.NATSSubject = "test.subject" ∧
      r.Compliance.PCIDSS = [] ∧ r.Compliance.MITRE = [] ∧
      r.Matcher = equalsMatcher (Split "type") "nmap" := by
  obtain ⟨r, hr, hname, _, _, hsubj, _, ⟨hpci, _, _, _, hmitre, _, _⟩, hmatch⟩ :=
    C12_CompileRule_keeps_metadata literalCompile
      { Name := "test-no-compliance", Description := "", Severity := "",
        NATSSubject := "test.subject", Compliance := noCompliance,
        Match := .mk "type" "nmap" "" [] [] } (equalsMatcher (Split "type") "nmap") rfl
  exact ⟨r, hr, hname, hsubj, hpci, hmitre, hmatch⟩

/-! ## Loading the rule set -/

theorem walkFn_of_holdsRule (Compile : RegexpCompile) (Unmarshal : RuleUnmarshal)
    (rules : List CompiledRule) (e : WalkEntry) (rf : RuleFile)
    (h : holdsRule Unmarshal e rf) :
    walkFn Compile Unmarshal rules e =
      match CompileRule Compile rf with
      | .error err => .error (.compiling e.path err)
      | .ok compiled => .ok (rules ++ [compiled]) := by
  obtain ⟨herr, hdir, hname, data, hread, hparse⟩ := h
  have hsuffix : (!HasSuffix e.Name ".yaml" && !HasSuffix e.Name ".yml") = false := by
    rcases hname with h1 | h1 <;> simp [h1]
  simp [walkFn, herr, hdir, hsuffix, hread, hparse]

theorem walkFn_of_skipsEntry (Compile : RegexpCompile) (Unmarshal : RuleUnmarshal)
    (rules : List CompiledRule) (e : WalkEntry) (h : skipsEntry e) :
    walkFn Compile Unmarshal rules e = .ok rules := by
  obtain ⟨herr, hskip⟩ := h
  rcases hskip with hdir | ⟨h1, h2⟩
  · simp [walkFn, herr, hdir]
  · by_cases hdir : e.IsDir = true
    · simp [walkFn, herr, hdir]
    · simp [walkFn, herr, hdir, h1, h2]

theorem walkDir_all_compile (Compile : RegexpCompile) (Unmarshal : RuleUnmarshal)
    {entries : List WalkEntry} {rfs : List RuleFile}
    (hfiles : walkFinds Unmarshal entries rfs) :
    ∀ (rules acc : List CompiledRule),
      List.Forall₂ (fun rf r => CompileRule Compile rf = .ok r) rfs rules →
      walkDir Compile Unmarshal entries acc = .ok (acc ++ rules) := by
  induction hfiles with
  | done =>
    intro rules acc hc
    cases hc
    simp [walkDir]
  | pass hskip _ ih =>
    intro rules acc hc
    rw [walkDir, walkFn_of_skipsEntry Compile Unmarshal acc _ hskip]
    exact ih rules acc hc
  | file he _ ih =>
    intro rules acc hc
    cases hc with
    | cons hr hrest =>
      rw [walkDir, walkFn_of_holdsRule Compile Unmarshal acc _ _ he]
      simp [hr, ih _ _ hrest]

theorem walkDir_first_failure (Compile : RegexpCompile) (Unmarshal : RuleUnmarshal)
    {before : List WalkEntry} {rfs : List RuleFile}
    (hfiles : walkFinds Unmarshal before rfs) :
    ∀ (rules acc : List CompiledRule) (e : WalkEntry) (rf : RuleFile) (err : CompileError)
      (later : List WalkEntry),
      List.Forall₂ (fun rf r => CompileRule Compile rf = .ok r) rfs rules →
      holdsRule Unmarshal e rf → CompileRule Compile rf = .error err →
      walkDir Compile Unmarshal (before ++ e :: later) acc = .error (.compiling e.path err) := by
  induction hfiles with
  | done =>
    intro rules acc e rf err later _ he hfail
    rw [List.nil_append, walkDir, walkFn_of_holdsRule Compile Unmarshal acc _ _ he]
    simp [hfail]
  | pass hskip _ ih =>
    intro rules acc e rf err later hc he hfail
    rw [List.cons_append, walkDir, walkFn_of_skipsEntry Compile Unmarshal acc _ hskip]
    exact ih rules acc e rf err later hc he hfail
  | file he1 _ ih =>
    intro rules acc e rf err later hc he hfail
    cases hc with
    | cons hr hrest =>
      rw [List.cons_append, walkDir, walkFn_of_holdsRule Compile Unmarshal acc _ _ he1]
      simp [hr, ih _ _ e rf err later hrest he hfail]

/-- A walk that goes through the rule file of a description that does not compile ends
with an error, whatever its other entries are. -/
theorem walkDir_fails_of_mem (Compile : RegexpCompile) (Unmarshal : RuleUnmarshal)
    (entries : List WalkEntry) (e : WalkEntry) (rf : RuleFile) (hmem : e ∈ entries)
    (he : holdsRule Unmarshal e rf) (hfail : (CompileRule Compile rf).isOk = false) :
    ∀ acc : List CompiledRule, (walkDir Compile Unmarshal entries acc).isOk = false := by
  induction entries with
  | nil => simp at hmem
  | cons e1 rest ih =>
    intro acc
    rw [walkDir]
    rcases List.mem_cons.mp hmem with heq | hrest
    · subst heq
      rw [walkFn_of_holdsRule Compile Unmarshal acc _ _ he]
      cases hc : CompileRule Compile rf with
      | error err => rfl
      | ok r =>
        rw [hc] at hfail
        simp [Except.isOk, Except.toBool] at hfail
    · cases hw : walkFn Compile Unmarshal acc e1 with
      | error err => rfl
      | ok rules1 => exact ih hrest rules1

theorem LoadRules_fails_of_mem (Compile : RegexpCompile) (Unmarshal : RuleUnmarshal)
    (dir : String) (entries : List WalkEntry) (e : WalkEntry) (rf : RuleFile)
    (hmem : e ∈ entries) (he : holdsRule Unmarshal e rf)
    (hfail : (CompileRule Compile rf).isOk = false) :
    (LoadRules Compile Unmarshal dir entries).isOk = false ∧
      (LoadRules Compile Unmarshal dir entries).toOption = none := by
  have hw := walkDir_fails_of_mem Compile Unmarshal entries e rf hmem he hfail []
  unfold LoadRules
  cases hwd : walkDir Compile Unmarshal entries [] with
  | error err => exact ⟨rfl, rfl⟩
  | ok rules =>
    rw [hwd] at hw
    simp [Except.isOk, Except.toBool] at hw

theorem walkFinds_mem (Unmarshal : RuleUnmarshal) {entries : List WalkEntry}
    {rfs : List RuleFile} (hfiles : walkFinds Unmarshal entries rfs) :
    ∀ rf ∈ rfs, ∃ e ∈ entries, holdsRule Unmarshal e rf := by
  induction hfiles with
  | done =>
    intro rf hrf
    simp at hrf
  | pass _ _ ih =>
    intro rf hrf
    obtain ⟨e, hmem, he⟩ := ih rf hrf
    exact ⟨e, List.mem_cons_of_mem _ hmem, he⟩
  | file he1 _ ih =>
    intro rf hrf
    rcases List.mem_cons.mp hrf with heq | hrest
    · subst heq
      exact ⟨_, List.mem_cons_self _ _, he1⟩
    · obtain ⟨e, hmem, he⟩ := ih rf hrest
      exact ⟨e, List.mem_cons_of_mem _ hmem, he⟩

/-- C13: on a walk that goes through directories and other files, which are passed
over, and through the rule files of an ordered sequence of descriptions, `LoadRules`
returns one compiled rule per description, in the same order, when every description
compiles; when a description fails to compile after descriptions that compile, it
returns the error of that first failing description and no rules, whatever comes later
in the walk; and it returns an error and no rules as soon as any description fails to
compile. -/
theorem C13_LoadRules_fail_fast (Compile : RegexpCompile) (Unmarshal : RuleUnmarshal)
    (dir : String) :
    (∀ (entries : List WalkEntry) (rfs : List RuleFile) (rules : List CompiledRule),
      walkFinds Unmarshal entries rfs →
      List.Forall₂ (fun rf r => CompileRule Compile rf = .ok r) rfs rules →
      LoadRules Compile Unmarshal dir entries = .ok rules) ∧
    (∀ (before : List WalkEntry) (rfs : List RuleFile) (rules : List CompiledRule)
      (e : WalkEntry) (rf : RuleFile) (err : CompileError) (later : List WalkEntry),
      walkFinds Unmarshal before rfs →
      List.Forall₂ (fun rf r => CompileRule Compile rf = .ok r) rfs rules →
      holdsRule Unmarshal e rf → CompileRule Compile rf = .error err →
      LoadRules Compile Unmarshal dir (before ++ e :: later) =
        .error (.walking dir (.compiling e.path err))) ∧
    (∀ (entries : List WalkEntry) (rfs : List RuleFile),
      walkFinds Unmarshal entries rfs →
      (∃ rf ∈ rfs, (CompileRule Compile rf).isOk = false) →
      (LoadRules Compile Unmarshal dir entries).isOk = false ∧
        (LoadRules Compile Unmarshal dir entries).toOption = none) := by
  refine ⟨?_, ?_, ?_⟩
  · intro entries rfs rules hfiles hc
    simp [LoadRules, walkDir_all_compile Compile Unmarshal hfiles rules [] hc]
  · intro before rfs rules e rf err later hfiles hc he hfail
    simp [LoadRules,
      walkDir_first_failure Compile Unmarshal hfiles rules [] e rf err later hc he hfail]
  · intro entries rfs hfiles hany
    obtain ⟨rf, hrf, hfail⟩ := hany
    obtain ⟨e, hmem, he⟩ := walkFinds_mem Unmarshal hfiles rf hrf
    exact LoadRules_fails_of_mem Compile Unmarshal dir entries e rf hmem he hfail

/-- Witness of C13: the walk of `rules` goes through the directory itself, a rule file
that compiles, a file that is not a rule file, a sub-directory, and in it a rule file
with the pattern `[invalid` and a last one that would fail too: the error is that of
`rules/k8s/b.yml`, and the last file is not reached. -/
theorem C13_LoadRules_witness :
    LoadRules literalCompile
      (fun data =>
        if data = [1] then .ok { Name := "ok", Description := "", Severity := "",
                                 NATSSubject := "s", Compliance := noCompliance,
                                 Match := .mk "type" "nmap" "" [] [] }
        else if data = [2] then .ok { Name := "bad", Description := "", Severity := "",
                                      NATSSubject := "s", Compliance := noCompliance,
                                      Match := .mk "type" "" "[invalid" [] [] }
        else .ok { Name := "empty", Description := "", Severity := "",
                   NATSSubject := "s", Compliance := noCompliance,
                   Match := .mk "" "" "" [] [] })
      "rules"
      ([dirEntry "rules" "rules", ruleFileEntry "rules/a.yaml" "a.yaml" [1],
          ruleFileEntry "rules/README.md" "README.md" [0], dirEntry "rules/k8s" "k8s"] ++
        ruleFileEntry "rules/k8s/b.yml" "b.yml" [2] ::
          [ruleFileEntry "rules/k8s/c.yaml" "c.yaml" [3]])
      = .error (.walking "rules" (.compiling "rules/k8s/b.yml"
          (.rule "bad" (.invalidRegex "[invalid" "type" "error parsing regexp")))) :=
  (C13_LoadRules_fail_fast literalCompile _ "rules").2.1
    [dirEntry "rules" "rules", ruleFileEntry "rules/a.yaml" "a.yaml" [1],
      ruleFileEntry "rules/README.md" "README.md" [0], dirEntry "rules/k8s" "k8s"]
    [{ Name := "ok", Description := "", Severity := "", NATSSubject := "s",
       Compliance := noCompliance, Match := .mk "type" "nmap" "" [] [] }]
    [{ Name := "ok", Description := "", Severity := "", NATSSubject := "s",
       Compliance := noCompliance, Matcher := equalsMatcher (Split "type") "nmap" }]
    (ruleFileEntry "rules/k8s/b.yml" "b.yml" [2])
    { Name := "bad", Description := "", Severity := "", NATSSubject := "s",
      Compliance := noCompliance, Match := .mk "type" "" "[invalid" [] [] }
    (.rule "bad" (.invalidRegex "[invalid" "type" "error parsing regexp"))
    [ruleFileEntry "rules/k8s/c.yaml" "c.yaml" [3]]
    (walkFinds.pass ⟨rfl, Or.inl rfl⟩
      (walkFinds.file ⟨rfl, rfl, Or.inl (by decide), [1], rfl, by rfl⟩
        (walkFinds.pass ⟨rfl, Or.inr ⟨by decide, by decide⟩⟩
          (walkFinds.pass ⟨rfl, Or.inl rfl⟩ walkFinds.done))))
    (List.Forall₂.cons (by rfl) List.Forall₂.nil)
    ⟨rfl, rfl, Or.inr (by decide), [2], rfl, by rfl⟩
    (by rfl)

/-! ## Invalid patterns -/

/-- C8, counterexample: `[invalid` is not a valid pattern, and four rules whose match
condition carries it compile: next to the equals value `nmap`, which is looked at first;
on a node with an and-child, and on a node with an or-child, which are compiled in place
of the leaf fields; and in an or-child of a node with an and-child, which is not
compiled. In none of them is the pattern given to `regexp.Compile`. -/
theorem C8_counterexample_equals_before_regex :
    (literalCompile "[invalid").isOk = false ∧
    (CompileRule literalCompile
      { Name := "equals-and-bad-regex", Description := "", Severity := "",
        NATSSubject := "test.subject", Compliance := noCompliance,
        Match := .mk "type" "nmap" "[invalid" [] [] }).isOk = true ∧
    (CompileRule literalCompile
      { Name := "group-and-bad-regex", Description := "", Severity := "",
        NATSSubject := "test.subject", Compliance := noCompliance,
        Match := .mk "type" "" "[invalid" [.mk "type" "nmap" "" [] []] [] }).isOk = true ∧
    (CompileRule literalCompile
      { Name := "or-group-and-bad-regex", Description := "", Severity := "",
        NATSSubject := "test.subject", Compliance := noCompliance,
        Match := .mk "type" "" "[invalid" [] [.mk "type" "nmap" "" [] []] }).isOk = true ∧
    (CompileRule literalCompile
      { Name := "bad-regex-not-compiled", Description := "", Severity := "",
        NATSSubject := "test.subject", Compliance := noCompliance,
        Match := .mk "" "" "" [.mk "type" "nmap" "" [] []]
          [.mk "type" "" "[invalid" [] []] }).isOk = true := by
  refine ⟨by decide, by rfl, by rfl, by rfl, by rfl⟩

theorem leaf_bad_regex_fails (Compile : RegexpCompile) (n : Condition) (msg : String)
    (hAnd : n.And = []) (hOr : n.Or = []) (hEq : n.Equals = "")
    (hbad : Compile n.Regex = .error msg) : (compileCondition Compile n).isOk = false := by
  rw [Bool.eq_false_iff, ne_eq, compileCondition_isOk_iff]
  simp [hAnd, hOr, hEq, hbad, Except.isOk, Except.toBool]

/-- C8, amended: a rule description whose match condition has, among the nodes the
compiler goes through (the root, then the and-children of a node that has some, otherwise
its or-children), a node without and-children, or-children and equals value that carries
a regex pattern that `regexp.Compile` rejects, does not compile: `CompileRule` returns an
error and no compiled rule, and `LoadRules` on a walk that goes through the file of the
rule returns an error and no rule set. When the node is the root and has a field, the
error names the pattern, the field and the error of `regexp.Compile`. -/
theorem C8_invalid_regex_leaf_fails (Compile : RegexpCompile) (Unmarshal : RuleUnmarshal)
    (dir : String) (rf : RuleFile) (n : Condition) (msg : String)
    (hn : n ∈ rf.Match.visited) (hAnd : n.And = []) (hOr : n.Or = [])
    (hEq : n.Equals = "") (hbad : Compile n.Regex = .error msg) :
    (CompileRule Compile rf).isOk = false ∧
    (CompileRule Compile rf).toOption.isNone = true ∧
    (n = rf.Match → n.Field ≠ "" → n.Regex ≠ "" →
      CompileRule Compile rf =
        .error (.rule rf.Name (.invalidRegex n.Regex n.Field msg))) ∧
    (∀ (entries : List WalkEntry) (e : WalkEntry), e ∈ entries → holdsRule Unmarshal e rf →
      (LoadRules Compile Unmarshal dir entries).isOk = false ∧
        (LoadRules Compile Unmarshal dir entries).toOption = none) := by
  have hleaf := leaf_bad_regex_fails Compile n msg hAnd hOr hEq hbad
  have hroot : (compileCondition Compile rf.Match).isOk = false := by
    rw [Bool.eq_false_iff]
    intro hok
    rw [visited_isOk Compile rf.Match hok n hn] at hleaf
    exact absurd hleaf (by decide)
  have hrule : (CompileRule Compile rf).isOk = false := by
    rw [CompileRule_isOk, hroot]
  refine ⟨hrule, ?_, ?_, ?_⟩
  · cases hc : CompileRule Compile rf with
    | error err => rfl
    | ok r =>
      rw [hc] at hrule
      simp [Except.isOk, Except.toBool] at hrule
  · intro heq hF hR
    subst heq
    obtain ⟨name, descr, sev, subj, compl, cond⟩ := rf
    obtain ⟨F, E, R, A, O⟩ := cond
    simp only [Condition.And, Condition.Or, Condition.Equals, Condition.Regex,
      Condition.Field] at hAnd hOr hEq hbad hF hR ⊢
    subst hAnd hOr hEq
    simp [CompileRule, compileCondition, hF, hR, hbad]
  · intro entries e hmem he
    exact LoadRules_fails_of_mem Compile Unmarshal dir entries e rf hmem he hrule

/-- Witness of C8 on a rule with the pattern `[invalid` in a Regex leaf under an AND
group, and on the rule of `TestInvalidRegexError`, where the leaf is the root. -/
theorem C8_invalid_regex_leaf_witness :
    (CompileRule literalCompile
      { Name := "nested-bad-regex", Description := "", Severity := "",
        NATSSubject := "test.subject", Compliance := noCompliance,
        Match := .mk "" "" "" [.mk "type" "nmap" "" [] [],
          .mk "finding" "" "[invalid" [] []] [] }).isOk = false ∧
    CompileRule literalCompile
      { Name := "test-bad-regex", Description := "", Severity := "",
        NATSSubject := "test.subject", Compliance := noCompliance,
        Match := .mk "type" "" "[invalid" [] [] } =
      .error (.rule "test-bad-regex"
        (.invalidRegex "[invalid" "type" "error parsing regexp")) :=
  ⟨(C8_invalid_regex_leaf_fails literalCompile (fun _ => .error "no file") "rules"
      { Name := "nested-bad-regex", Description := "", Severity := "",
        NATSSubject := "test.subject", Compliance := noCompliance,
        Match := .mk "" "" "" [.mk "type" "nmap" "" [] [],
          .mk "finding" "" "[invalid" [] []] [] }
      (.mk "finding" "" "[invalid" [] []) "error parsing regexp"
      (by simp [Condition.visited, visitedList]) rfl rfl rfl (by rfl)).1,
    (C8_invalid_regex_leaf_fails literalCompile (fun _ => .error "no file") "rules"
      { Name := "test-bad-regex", Description := "", Severity := "",
        NATSSubject := "test.subject", Compliance := noCompliance,
        Match := .mk "type" "" "[invalid" [] [] }
      (.mk "type" "" "[invalid" [] []) "error parsing regexp"
      (by simp [Condition.visited]) rfl rfl rfl (by rfl)).2.2.1 rfl (by decide) (by decide)⟩

/-! ## Numbers in equality matching -/

theorem digitByte_zero : digitByte 0 = '0' := by decide

/-- The digit of rank `p` of the number written by a list of digits, least significant
first. -/
theorem ofDigits_div_pow_mod (L : List Nat) (hL : ∀ x ∈ L, x < 10) (p : Nat) :
    Nat.ofDigits 10 L / 10 ^ p % 10 = L.getD p 0 := by
  induction L generalizing p with
  | nil => simp
  | cons a rest ih =>
    have ha : a < 10 := hL a (List.mem_cons_self _ _)
    have hrest : ∀ x ∈ rest, x < 10 := fun x hx => hL x (List.mem_cons_of_mem _ hx)
    rw [Nat.ofDigits_cons]
    cases p with
    | zero =>
      simp only [pow_zero, Nat.div_one, List.getD_cons_zero]
      omega
    | succ q =>
      have hdiv : (a + 10 * Nat.ofDigits 10 rest) / 10 ^ (q + 1) =
          Nat.ofDigits 10 rest / 10 ^ q := by
        rw [pow_succ, mul_comm (10 ^ q) 10, ← Nat.div_div_eq_div_mul]
        congr 1
        omega
      rw [hdiv, ih hrest q]
      simp

theorem natText_ofDigits_reverse (l : List Nat) (hl : ∀ x ∈ l, x < 10) (hne : l ≠ [])
    (hhead : l.head? ≠ some 0) :
    natText (Nat.ofDigits 10 l.reverse) = String.mk (l.map digitByte) := by
  have hlast : ∀ h : l.reverse ≠ [], l.reverse.getLast h ≠ 0 := by
    intro h
    rw [List.getLast_reverse]
    intro h0
    apply hhead
    rw [List.head?_eq_head hne]
    simp [h0]
  have hdig : Nat.digits 10 (Nat.ofDigits 10 l.reverse) = l.reverse :=
    Nat.digits_ofDigits 10 (by norm_num) l.reverse (by simpa using hl) hlast
  have hnz : Nat.ofDigits 10 l.reverse ≠ 0 := by
    intro h0
    rw [h0] at hdig
    simp at hdig
    exact hne hdig
  simp [natText, hnz, hdig]

theorem natText_ofDigits_mul_pow (l : List Nat) (hl : ∀ x ∈ l, x < 10) (hne : l ≠ [])
    (hhead : l.head? ≠ some 0) (z : Nat) :
    natText (Nat.ofDigits 10 l.reverse * 10 ^ z) =
      String.mk (l.map digitByte ++ List.replicate z '0') := by
  have hlast : ∀ h : l.reverse ≠ [], l.reverse.getLast h ≠ 0 := by
    intro h
    rw [List.getLast_reverse]
    intro h0
    apply hhead
    rw [List.head?_eq_head hne]
    simp [h0]
  have hdig : Nat.digits 10 (Nat.ofDigits 10 l.reverse) = l.reverse :=
    Nat.digits_ofDigits 10 (by norm_num) l.reverse (by simpa using hl) hlast
  have hnz : Nat.ofDigits 10 l.reverse ≠ 0 := by
    intro h0
    rw [h0] at hdig
    simp at hdig
    exact hne hdig
  have hpos : 0 < Nat.ofDigits 10 l.reverse := Nat.pos_of_ne_zero hnz
  have hmul : Nat.ofDigits 10 l.reverse * 10 ^ z ≠ 0 := by positivity
  have hd2 : Nat.digits 10 (Nat.ofDigits 10 l.reverse * 10 ^ z) =
      List.replicate z 0 ++ l.reverse := by
    rw [mul_comm, Nat.digits_base_pow_mul (by norm_num) hpos, hdig]
  simp [natText, hmul, hd2, digitByte_zero]

theorem ofDigits_reverse_div_pow (l : List Nat) (hl : ∀ x ∈ l, x < 10) (t : Nat) :
    Nat.ofDigits 10 l.reverse / 10 ^ (l.length - t) = Nat.ofDigits 10 (l.take t).reverse := by
  have hsplit : l.reverse = (l.drop t).reverse ++ (l.take t).reverse := by
    rw [← List.reverse_append, List.take_append_drop]
  have hlen : (l.drop t).reverse.length = l.length - t := by simp
  have hlt : Nat.ofDigits 10 (l.drop t).reverse < 10 ^ (l.length - t) := by
    rw [← hlen]
    apply Nat.ofDigits_lt_base_pow_length (by norm_num)
    intro x hx
    exact hl x (List.mem_of_mem_drop (List.mem_reverse.mp hx))
  rw [hsplit, Nat.ofDigits_append, hlen]
  rw [Nat.add_mul_div_left _ _ (by positivity), Nat.div_eq_of_lt hlt, zero_add]

theorem getD_reverse_digit (l : List Nat) (q : Nat) :
    l.reverse.getD q 0 = if q < l.length then l.getD (l.length - 1 - q) 0 else 0 := by
  by_cases hq : q < l.length
  · simp only [hq, if_true, List.getD_eq_getElem?_getD]
    rw [List.getElem?_reverse hq]
  · simp only [hq, if_false, List.getD_eq_getElem?_getD]
    rw [List.getElem?_eq_none (by simpa using hq)]
    rfl

theorem fraction_digits (d : List Nat) (hd : ∀ x ∈ d, x < 10) (dp : Int)
    (hdp : dp < (d.length : Int)) :
    ((List.range ((d.length : Int) - dp).toNat).map fun i =>
        let j : Int := dp + i
        if 0 ≤ j ∧ j < (d.length : Int) then digitByte (d.getD j.toNat 0) else '0') =
      (List.range ((d.length : Int) - dp).toNat).map fun (i : Nat) =>
        digitByte (Nat.ofDigits 10 d.reverse / 10 ^ (((d.length : Int) - dp).toNat - 1 - i) % 10) := by
  simp only [bind_pure_comp, List.map_eq_map, List.map_map]
  apply List.map_congr_left
  intro i hi
  have hik : i < ((d.length : Int) - dp).toNat := List.mem_range.mp hi
  have hrev : ∀ x ∈ d.reverse, x < 10 := by simpa using hd
  rw [ofDigits_div_pow_mod d.reverse hrev, getD_reverse_digit]
  simp only [Function.comp]
  by_cases hj : 0 ≤ dp + (i : Int)
  · have hjlt : dp + (i : Int) < (d.length : Int) := by omega
    have hq : ((d.length : Int) - dp).toNat - 1 - i < d.length := by omega
    have hidx : d.length - 1 - (((d.length : Int) - dp).toNat - 1 - i) = (dp + (i : Int)).toNat := by
      omega
    simp only [hj, hjlt, and_self, if_true, hq, hidx]
  · have hq : ¬ ((d.length : Int) - dp).toNat - 1 - i < d.length := by omega
    simp only [hj, false_and, if_false, hq, digitByte_zero]

theorem fmtF_eq_decimalForm (n : Number) (h : n.wellFormed = true) :
    fmtF n = decimalForm n := by
  obtain ⟨neg, d, dp⟩ := n
  simp only [Number.wellFormed, Bool.and_eq_true, List.all_eq_true, decide_eq_true_eq,
    bne_iff_ne, ne_eq, Bool.or_eq_true, Bool.not_eq_true', List.isEmpty_eq_false,
    beq_iff_eq] at h
  obtain ⟨⟨hall, hhead⟩, hzero⟩ := h
  unfold fmtF decimalForm Number.mantissa
  simp only
  by_cases hcase : (d.length : Int) ≤ dp
  · -- no fraction
    have hprec : ((d.length : Int) - dp).toNat = 0 := by omega
    simp only [hcase, if_true, hprec, lt_self_iff_false, if_false, String.append_empty]
    by_cases hd : d = []
    · subst hd
      have hdp : dp = 0 := by
        rcases hzero with h1 | h1
        · simp at h1
        · exact h1
      subst hdp
      simp [natText]
    · have hlen : 0 < d.length := List.length_pos.mpr hd
      have hpos : dp > 0 := by omega
      obtain ⟨p, rfl⟩ := Int.eq_ofNat_of_zero_le (le_of_lt hpos)
      have hp : d.length ≤ p := by exact_mod_cast hcase
      have hmin : min d.length p = d.length := min_eq_left hp
      have hz : ((p : Int) - (d.length : Int)).toNat = p - d.length := by omega
      simp only [hpos, if_true, Int.toNat_ofNat, hmin, List.take_length, hz]
      congr 1
      exact (natText_ofDigits_mul_pow d hall hd hhead (p - d.length)).symm
  · -- a fraction
    have hlt : dp < (d.length : Int) := by omega
    have hd : d ≠ [] := by
      intro h0
      subst h0
      rcases hzero with h1 | h1
      · simp at h1
      · simp [h1] at hlt
    have hprec : 0 < ((d.length : Int) - dp).toNat := by omega
    simp only [hcase, if_false, hprec, if_true, fraction_digits d hall dp hlt, fracText]
    rw [String.append_assoc, String.append_assoc, String.append_assoc]
    congr 1
    congr 1
    by_cases hpos : dp > 0
    · obtain ⟨p, rfl⟩ := Int.eq_ofNat_of_zero_le (le_of_lt hpos)
      have hp : p < d.length := by exact_mod_cast hlt
      have hp0 : 0 < p := by exact_mod_cast hpos
      have hmin : min d.length p = p := min_eq_right (le_of_lt hp)
      have hk : ((d.length : Int) - (p : Int)).toNat = d.length - p := by omega
      simp only [hpos, if_true, Int.toNat_ofNat, hmin, Nat.sub_self, List.replicate_zero,
        List.append_nil, hk]
      rw [ofDigits_reverse_div_pow d hall p]
      have htake : d.take p ≠ [] := by
        intro h0
        have := congrArg List.length h0
        rw [List.length_take, List.length_nil] at this
        omega
      have hhead2 : (d.take p).head? ≠ some 0 := by
        cases d with
        | nil => exact absurd rfl hd
        | cons a rest =>
          obtain ⟨q, rfl⟩ : ∃ q, p = q + 1 := ⟨p - 1, by omega⟩
          simpa using hhead
      exact (natText_ofDigits_reverse (d.take p)
        (fun x hx => hall x (List.mem_of_mem_take hx)) htake hhead2).symm
    · have hk : d.length ≤ ((d.length : Int) - dp).toNat := by omega
      have hsmall : Nat.ofDigits 10 d.reverse < 10 ^ ((d.length : Int) - dp).toNat := by
        have h1 : Nat.ofDigits 10 d.reverse < 10 ^ d.reverse.length :=
          Nat.ofDigits_lt_base_pow_length (by norm_num) (by simpa using hall)
        rw [List.length_reverse] at h1
        exact lt_of_lt_of_le h1 (Nat.pow_le_pow_right (by norm_num) hk)
      simp only [hpos, if_false, Nat.div_eq_of_lt hsmall, natText, if_true]

/-- C14, counterexample: the number 1000000, as `float64`, prints as `1e+06` with `%v`
while its decimal form is `1000000`, so the Equals leaf on field `count` with target
`1000000` does not match `{"count": 1000000}` and matches `{"count": "1000000"}`; in the
same way 0.00001 prints as `1e-05`, and the leaf with target `0.00001` does not match
`{"ratio": 0.00001}` and matches `{"ratio": "0.00001"}`. -/
theorem C14_counterexample_million :
    (Number.wellFormed { neg := false, d := [1], dp := 7 } = true ∧
      Sprint (.num { neg := false, d := [1], dp := 7 }) = "1e+06" ∧
      decimalForm { neg := false, d := [1], dp := 7 } = "1000000" ∧
      ∃ m, compileCondition literalCompile (.mk "count" "1000000" "" [] []) = .ok m ∧
        m [("count", .num { neg := false, d := [1], dp := 7 })] = some false ∧
        m [("count", .str "1000000")] = some true) ∧
    (Number.wellFormed { neg := false, d := [1], dp := -4 } = true ∧
      Sprint (.num { neg := false, d := [1], dp := -4 }) = "1e-05" ∧
      decimalForm { neg := false, d := [1], dp := -4 } = "0.00001" ∧
      ∃ m, compileCondition literalCompile (.mk "ratio" "0.00001" "" [] []) = .ok m ∧
        m [("ratio", .num { neg := false, d := [1], dp := -4 })] = some false ∧
        m [("ratio", .str "0.00001")] = some true) := by
  refine ⟨⟨by decide, by decide, ?_,
    equalsMatcher (Split "count") "1000000", by rfl, by decide, by decide⟩,
    ⟨by decide, by decide, ?_,
    equalsMatcher (Split "ratio") "0.00001", by rfl, by decide, by decide⟩⟩
  · simp [decimalForm, Number.mantissa, natText, Nat.ofDigits]
    decide
  · simp [decimalForm, Number.mantissa, natText, fracText, Nat.ofDigits, List.range,
      List.range.loop]
    decide

/-- C14, amended: for every number whose decimal exponent is at least `-4` and below `6`
(the number is `0.d₁d₂… × 10 ^ dp` with `d₁` not zero, and the exponent is `dp - 1`; this
covers 42 and every integer below 1000000 in magnitude), every field and every target, an
Equals leaf returns the same result on an event whose field holds the number as on an
event whose field holds the string that is the decimal form of its value. -/
theorem C14_equals_number_as_decimal_text (Compile : RegexpCompile) (F T R : String)
    (n : Number) (event1 event2 : Event) (hF : F ≠ "") (hT : T ≠ "")
    (hn : n.wellFormed = true) (hlow : -4 ≤ n.dp - 1) (hhigh : n.dp - 1 < 6)
    (h1 : getNestedField event1 (Split F) = .num n)
    (h2 : getNestedField event2 (Split F) = .str (decimalForm n)) :
    ∃ m, compileCondition Compile (.mk F T R [] []) = .ok m ∧
      m event1 = m event2 ∧ m event1 = some (decide (decimalForm n = T)) ∧
      Sprint (.num n) = decimalForm n := by
  have hfmt : formatFloat n = decimalForm n := by
    rw [← fmtF_eq_decimalForm n hn]
    unfold formatFloat
    have hnot : ¬ (n.dp - 1 < -4 ∨ n.dp - 1 ≥ 6) := by omega
    simp only [hnot, if_false]
  refine ⟨_, compileCondition_equals_leaf Compile F T R hF hT, ?_, ?_, ?_⟩
  · simp [equalsMatcher, h1, h2, Value.isNil, Sprint, hfmt]
  · simp [equalsMatcher, h1, Value.isNil, Sprint, hfmt]
  · simp [Sprint, hfmt]

/-- Witness of C14 on the number 42 and the string `42`, its decimal form, with the
target `42`; the decimal forms of -1.5 and of 0.000125 are `-1.5` and `0.000125`. -/
theorem C14_equals_number_witness :
    decimalForm { neg := false, d := [4, 2], dp := 2 } = "42" ∧
    decimalForm { neg := true, d := [1, 5], dp := 1 } = "-1.5" ∧
    decimalForm { neg := false, d := [1, 2, 5], dp := -3 } = "0.000125" ∧
    ∃ m, compileCondition literalCompile (.mk "port" "42" "" [] []) = .ok m ∧
      m [("port", .num { neg := false, d := [4, 2], dp := 2 })] =
        m [("port", .str (decimalForm { neg := false, d := [4, 2], dp := 2 }))] ∧
      m [("port", .num { neg := false, d := [4, 2], dp := 2 })] =
        some (decide (decimalForm { neg := false, d := [4, 2], dp := 2 } = "42")) ∧
      Sprint (.num { neg := false, d := [4, 2], dp := 2 }) =
        decimalForm { neg := false, d := [4, 2], dp := 2 } :=
  ⟨by simp [decimalForm, Number.mantissa, natText, Nat.ofDigits]; decide,
    by simp [decimalForm, Number.mantissa, natText, fracText, Nat.ofDigits, List.range,
      List.range.loop]; decide,
    by simp [decimalForm, Number.mantissa, natText, fracText, Nat.ofDigits, List.range,
      List.range.loop]; decide,
    C14_equals_number_as_decimal_text literalCompile "port" "42" ""
      { neg := false, d := [4, 2], dp := 2 }
      [("port", .num { neg := false, d := [4, 2], dp := 2 })]
      [("port", .str (decimalForm { neg := false, d := [4, 2], dp := 2 }))]
      (by decide) (by decide) (by decide) (by decide) (by decide) (by rfl) (by rfl)⟩

/-! ## Evaluation -/

/-- C15: the predicate of every condition that compiles, and of every rule that
`CompileRule` makes, returns a boolean on every event. -/
theorem C15_evaluation_total (Compile : RegexpCompile) :
    (∀ (c : Condition) (m : Matcher), compileCondition Compile c = .ok m →
      ∀ event : Event, ∃ b, m event = some b) ∧
    (∀ (rf : RuleFile) (r : CompiledRule), CompileRule Compile rf = .ok r →
      ∀ event : Event, ∃ b, r.Matcher event = some b) :=
  ⟨compileCondition_returns Compile, CompileRule_returns Compile⟩

/-- Witness of C15 on the condition of `TestNestedAndOr` and an event whose `type` is a
sequence and whose `finding` is a nested mapping. -/
theorem C15_evaluation_witness :
    ∃ b, andMatcher [equalsMatcher (Split "type") "Nikto",
        orMatcher [regexMatcher (Split "finding") (literalRegexp true "sql injection".data),
          regexMatcher (Split "finding") (literalRegexp true "directory traversal".data)]]
      [("type", .arr [.null, .bool true]), ("finding", .obj [("a", .obj [])])] = some b :=
  (C15_evaluation_total literalCompile).1
    (.mk "" "" "" [.mk "type" "Nikto" "" [] [],
      .mk "" "" "" [] [.mk "finding" "" "(?i)sql injection" [] [],
        .mk "finding" "" "(?i)directory traversal" [] []]] [])
    _ (by rfl) [("type", .arr [.null, .bool true]), ("finding", .obj [("a", .obj [])])]

/-! ## Short-circuit evaluation -/

theorem andMatcher_append_of_true (before rest : List Matcher) (event : Event)
    (h : ∀ m ∈ before, m event = some true) :
    andMatcher (before ++ rest) event = andMatcher rest event := by
  induction before with
  | nil => rfl
  | cons m ms ih =>
    have hm := h m (List.mem_cons_self _ _)
    rw [List.cons_append, andMatcher]
    simp only [hm]
    exact ih fun m2 hm2 => h m2 (List.mem_cons_of_mem _ hm2)

theorem orMatcher_append_of_false (before rest : List Matcher) (event : Event)
    (h : ∀ m ∈ before, m event = some false) :
    orMatcher (before ++ rest) event = orMatcher rest event := by
  induction before with
  | nil => rfl
  | cons m ms ih =>
    have hm := h m (List.mem_cons_self _ _)
    rw [List.cons_append, orMatcher]
    simp only [hm]
    exact ih fun m2 hm2 => h m2 (List.mem_cons_of_mem _ hm2)

/-- C16: in the predicate of an AND group (the `andMatcher` of its compiled children),
when the children before a child are true on the event and that child is false, the
result is false, equal to the AND over the children up to that child, whatever the later
children are, also when they do not return; the first child is called first, so the
group does not return when it does not. Dually the predicate of an OR group (the
`orMatcher` of its compiled children) is true at the first child that is true. -/
theorem C16_short_circuit (Compile : RegexpCompile) :
    (∀ (c : Condition) (m : Matcher), c.And ≠ [] → compileCondition Compile c = .ok m →
      ∃ ms, compileMatchers Compile c.And = .ok ms ∧ m = andMatcher ms) ∧
    (∀ (c : Condition) (m : Matcher), c.And = [] → c.Or ≠ [] →
      compileCondition Compile c = .ok m →
      ∃ ms, compileMatchers Compile c.Or = .ok ms ∧ m = orMatcher ms) ∧
    (∀ (before : List Matcher) (f : Matcher) (later : List Matcher) (event : Event),
      (∀ m ∈ before, m event = some true) → f event = some false →
      andMatcher (before ++ f :: later) event = some false ∧
      andMatcher (before ++ f :: later) event = andMatcher (before ++ [f]) event) ∧
    (∀ (before : List Matcher) (f : Matcher) (later : List Matcher) (event : Event),
      (∀ m ∈ before, m event = some false) → f event = some true →
      orMatcher (before ++ f :: later) event = some true ∧
      orMatcher (before ++ f :: later) event = orMatcher (before ++ [f]) event) ∧
    (∀ (f : Matcher) (later : List Matcher) (event : Event), f event = none →
      andMatcher (f :: later) event = none ∧ orMatcher (f :: later) event = none) := by
  refine ⟨and_group_compiled Compile, or_group_compiled Compile, ?_, ?_, ?_⟩
  · intro before f later event hbefore hf
    rw [andMatcher_append_of_true before _ event hbefore,
      andMatcher_append_of_true before _ event hbefore]
    simp [andMatcher, hf]
  · intro before f later event hbefore hf
    rw [orMatcher_append_of_false before _ event hbefore,
      orMatcher_append_of_false before _ event hbefore]
    simp [orMatcher, hf]
  · intro f later event hf
    simp [andMatcher, orMatcher, hf]

/-- Witness of C16: an AND group whose first child is false on `{"type": "nmap"}` and
whose second child never returns. -/
theorem C16_short_circuit_witness :
    andMatcher ([] ++ equalsMatcher (Split "type") "Nikto" :: [fun _ => none])
      [("type", .str "nmap")] = some false :=
  ((C16_short_circuit literalCompile).2.2.1 [] (equalsMatcher (Split "type") "Nikto")
    [fun _ => none] [("type", .str "nmap")] (by simp) (by decide)).1

/-! ## Field names and dots -/

theorem splitDot_no_dot (cs acc : List Char) (hacc : '.' ∉ acc) :
    ∀ seg ∈ splitDot cs acc, '.' ∉ seg.data := by
  induction cs generalizing acc with
  | nil =>
    intro seg hseg
    simp only [splitDot, List.mem_singleton] at hseg
    subst hseg
    simpa using hacc
  | cons c rest ih =>
    intro seg hseg
    rw [splitDot] at hseg
    by_cases hc : c = '.'
    · simp only [hc, if_true, List.mem_cons] at hseg
      rcases hseg with rfl | hseg
      · simpa using hacc
      · exact ih [] (by simp) seg hseg
    · simp only [hc, if_false] at hseg
      refine ih (c :: acc) ?_ seg hseg
      intro hmem
      rcases List.mem_cons.mp hmem with h | h
      · exact hc h.symm
      · exact hacc h

theorem splitDot_ne_nil (cs acc : List Char) : splitDot cs acc ≠ [] := by
  induction cs generalizing acc with
  | nil => simp [splitDot]
  | cons c rest ih =>
    rw [splitDot]
    split
    · simp
    · exact ih _

theorem intercalate_go_data (l : List String) (acc : String) :
    (String.intercalate.go acc "." l).data =
      acc.data ++ (l.map fun a => '.' :: a.data).flatten := by
  induction l generalizing acc with
  | nil => simp [String.intercalate.go]
  | cons a rest ih =>
    have hdot : ".".data = ['.'] := rfl
    simp [String.intercalate.go, ih, List.append_assoc, hdot]

theorem splitDot_dotted (cs acc : List Char) :
    ((splitDot cs acc).map fun a => '.' :: a.data).flatten = '.' :: (acc.reverse ++ cs) := by
  induction cs generalizing acc with
  | nil => simp [splitDot]
  | cons c rest ih =>
    rw [splitDot]
    by_cases hc : c = '.'
    · simp [hc, ih]
    · simp [hc, ih]

theorem intercalate_splitDot (cs acc : List Char) :
    (".".intercalate (splitDot cs acc)).data = acc.reverse ++ cs := by
  have h := splitDot_dotted cs acc
  cases hs : splitDot cs acc with
  | nil => exact absurd hs (splitDot_ne_nil cs acc)
  | cons a rest =>
    rw [hs] at h
    simp only [List.map_cons, List.flatten_cons, List.cons_append, List.cons.injEq,
      true_and] at h
    simp only [String.intercalate, intercalate_go_data, h]

theorem mapIndex_filter_ne (m : List (String × Value)) (k key : String) (h : key ≠ k) :
    mapIndex (m.filter fun p => p.1 != k) key = mapIndex m key := by
  induction m with
  | nil => rfl
  | cons p rest ih =>
    obtain ⟨k1, v⟩ := p
    by_cases hk : k1 = k
    · subst hk
      have hne : ¬ k1 = key := fun h2 => h h2.symm
      simp [List.filter_cons, mapIndex, hne, ih]
    · by_cases hkey : k1 = key
      · subst hkey
        simp [List.filter_cons, hk, mapIndex]
      · simp [List.filter_cons, hk, mapIndex, hkey, ih]

/-- C17: the lookup path of a field `F` is `F` cut at every `.`: no segment of
`Split F` contains a `.` and the segments joined by `.` are `F`; a compiled leaf depends
on the event only through the value reached by the walk along these segments
(`samma-io.scanner` reads key `scanner` inside key `samma-io`). So a key that contains a
`.` is not reachable: removing such a key from the top level of an event changes no
lookup, and a leaf on field `a.b` is false on every event without the key `a`, whatever
its key `a.b` holds. -/
theorem C17_dots_separate_segments (Compile : RegexpCompile) :
    (∀ F : String, (∀ seg ∈ Split F, '.' ∉ seg.data) ∧ ".".intercalate (Split F) = F) ∧
    (∀ (c : Condition) (m : Matcher), c.And = [] → c.Or = [] →
      compileCondition Compile c = .ok m →
      ∃ test : String → Bool, ∀ event : Event,
        m event =
          if ((refWalk event (Split c.Field)).getD .null).isNil then some false
          else some (test (Sprint ((refWalk event (Split c.Field)).getD .null)))) ∧
    (Split "samma-io.scanner" = ["samma-io", "scanner"] ∧
      ∃ m, compileCondition Compile (.mk "samma-io.scanner" "domain" "" [] []) = .ok m ∧
        m [("type", .str "nmap"),
           ("samma-io", .obj [("scanner", .str "domain"), ("id", .str "g23dE222")])]
          = some true) ∧
    (∀ (F k : String) (event : Event), '.' ∈ k.data →
      getNestedField (event.filter fun p => p.1 != k) (Split F) =
        getNestedField event (Split F)) ∧
    (∀ (c : Condition) (m : Matcher) (event : Event), c.And = [] → c.Or = [] →
      c.Field = "a.b" → compileCondition Compile c = .ok m → mapIndex event "a" = none →
      m event = some false) := by
  refine ⟨?_, ?_, ⟨by decide, ?_⟩, ?_, ?_⟩
  · intro F
    refine ⟨splitDot_no_dot F.data [] (by simp), ?_⟩
    apply String.ext
    simpa [Split] using intercalate_splitDot F.data []
  · intro c m hA hO hm
    rcases compileCondition_leaf_cases Compile c m hA hO hm with rfl | ⟨re, rfl⟩
    · refine ⟨fun s => decide (s = c.Equals), fun event => ?_⟩
      simp only [equalsMatcher, getNestedField_eq_refWalk]
    · refine ⟨re.MatchString, fun event => ?_⟩
      simp only [regexMatcher, getNestedField_eq_refWalk]
  · exact ⟨_, compileCondition_equals_leaf Compile _ _ _ (by decide) (by decide), by decide⟩
  · intro F k event hk
    have hne := splitDot_ne_nil F.data []
    have hnodot := splitDot_no_dot F.data [] (by simp)
    unfold Split getNestedField
    cases hs : splitDot F.data [] with
    | nil => exact absurd hs hne
    | cons seg rest =>
      have hseg : seg ≠ k := by
        intro heq
        exact hnodot seg (by rw [hs]; exact List.mem_cons_self _ _) (heq ▸ hk)
      simp only [getNestedFieldLoop, mapIndex_filter_ne event k seg hseg]
  · intro c m event hA hO hF hm hnone
    refine leaf_false_of_nil Compile c m event hA hO hm ?_
    have hsplit : Split "a.b" = ["a", "b"] := by decide
    rw [hF, hsplit]
    simp [getNestedField, getNestedFieldLoop, hnone, Value.isNil]

/-- Witness of C17: the event `{"a.b": "x"}` has the key `a.b` and no key `a`, and the
leaf on field `a.b` with target `x` is false on it. -/
theorem C17_dotted_key_witness :
    equalsMatcher (Split "a.b") "x" [("a.b", .str "x")] = some false :=
  (C17_dots_separate_segments literalCompile).2.2.2.2 (.mk "a.b" "x" "" [] [])
    (equalsMatcher (Split "a.b") "x") [("a.b", .str "x")] rfl rfl rfl (by rfl) (by rfl)

/-! ## The priority of the compile rules -/

/-- C18: the compile rules apply in the order AND, OR, leaf, with equals before regex.
A node with and-children compiles to what the node with only these and-children compiles
to (the same error, or the same predicate), whatever its or-children, field, equals and
regex are; otherwise a node with or-children compiles to what the node with only these
or-children compiles to; otherwise a node with a field and an equals value compiles to
the Equals leaf, whatever its regex is. -/
theorem C18_compile_priority (Compile : RegexpCompile) (F E R : String)
    (A O : List Condition) :
    (A ≠ [] → compileCondition Compile (.mk F E R A O) =
      compileCondition Compile (.mk "" "" "" A [])) ∧
    (A = [] → O ≠ [] → compileCondition Compile (.mk F E R A O) =
      compileCondition Compile (.mk "" "" "" [] O)) ∧
    (A = [] → O = [] → F ≠ "" → E ≠ "" →
      compileCondition Compile (.mk F E R A O) = compileCondition Compile (.mk F E "" [] []) ∧
      compileCondition Compile (.mk F E R A O) = .ok (equalsMatcher (Split F) E)) := by
  refine ⟨?_, ?_, ?_⟩
  · intro hA
    rw [compileCondition_of_and Compile (.mk F E R A O) hA,
      compileCondition_of_and Compile (.mk "" "" "" A []) hA]
    rfl
  · intro hA hO
    subst hA
    rw [compileCondition_of_or Compile (.mk F E R [] O) rfl hO,
      compileCondition_of_or Compile (.mk "" "" "" [] O) rfl hO]
    rfl
  · intro hA hO hF hE
    subst hA hO
    rw [compileCondition_equals_leaf Compile F E R hF hE,
      compileCondition_equals_leaf Compile F E "" hF hE]
    exact ⟨rfl, rfl⟩

/-- Witness of C18: a node with an and-child, and also an or-child that does not
compile, a field, an equals value and the pattern `[invalid`. -/
theorem C18_compile_priority_witness :
    compileCondition literalCompile
        (.mk "proto" "tcp" "[invalid" [.mk "type" "nmap" "" [] []] [.mk "" "" "" [] []]) =
      compileCondition literalCompile (.mk "" "" "" [.mk "type" "nmap" "" [] []] []) :=
  (C18_compile_priority literalCompile "proto" "tcp" "[invalid" [.mk "type" "nmap" "" [] []]
    [.mk "" "" "" [] []]).1 (by simp)

/-! ## Null values and empty strings -/

/-- C19: a compiled leaf (Equals or Regex) is false on every event in which the path of
its field reaches a key that holds null, as on an event in which the path is absent; the
`%v` form of null is not compared: the Equals leaf with target `<nil>` is false on
`{"f": null}` although null prints as `<nil>`. -/
theorem C19_null_is_absent (Compile : RegexpCompile) :
    (∀ (c : Condition) (m : Matcher) (event : Event), c.And = [] → c.Or = [] →
      compileCondition Compile c = .ok m → refWalk event (Split c.Field) = some .null →
      m event = some false) ∧
    (Sprint .null = "<nil>" ∧ refWalk [("f", .null)] (Split "f") = some .null ∧
      ∃ m, compileCondition Compile (.mk "f" "<nil>" "" [] []) = .ok m ∧
        m [("f", .null)] = some false ∧ m [("g", .null)] = some false) := by
  refine ⟨?_, by decide, by rfl, ?_⟩
  · intro c m event hA hO hm hnull
    refine leaf_false_of_nil Compile c m event hA hO hm ?_
    rw [getNestedField_eq_refWalk, hnull]
    rfl
  · exact ⟨_, compileCondition_equals_leaf Compile _ _ _ (by decide) (by decide),
      by decide, by decide⟩

/-- Witness of C19: the Regex leaf with pattern `nil` is false on `{"f": null}`. -/
theorem C19_null_is_absent_witness :
    regexMatcher (Split "f") (literalRegexp false "nil".data) [("f", .null)] = some false :=
  (C19_null_is_absent literalCompile).1 (.mk "f" "" "nil" [] [])
    (regexMatcher (Split "f") (literalRegexp false "nil".data)) [("f", .null)] rfl rfl
    (by rfl) (by rfl)

/-- C20: an empty equals value is no equals value. A node without children that has a
field, an empty equals and an empty regex does not compile; a compiled leaf whose equals
is empty is a Regex leaf, so the target of a compiled Equals leaf is not empty; and a
compiled Equals leaf is false on every event in which the value of its field prints as
the empty string, such as `{"type": ""}`. -/
theorem C20_empty_equals_is_no_equals (Compile : RegexpCompile) :
    (∀ F : String, (compileCondition Compile (.mk F "" "" [] [])).isOk = false) ∧
    (∀ (c : Condition) (m : Matcher), c.And = [] → c.Or = [] →
      compileCondition Compile c = .ok m →
      (c.Equals ≠ "" ∧ m = equalsMatcher (Split c.Field) c.Equals) ∨
      (c.Equals = "" ∧ c.Regex ≠ "" ∧
        ∃ re, Compile c.Regex = .ok re ∧ m = regexMatcher (Split c.Field) re)) ∧
    (∀ (c : Condition) (m : Matcher) (event : Event), c.And = [] → c.Or = [] →
      c.Equals ≠ "" → compileCondition Compile c = .ok m →
      Sprint (getNestedField event (Split c.Field)) = "" → m event = some false) ∧
    (∀ T : String, T ≠ "" →
      ∃ m, compileCondition Compile (.mk "type" T "" [] []) = .ok m ∧
        m [("type", .str "")] = some false) := by
  have cases_leaf : ∀ (c : Condition) (m : Matcher), c.And = [] → c.Or = [] →
      compileCondition Compile c = .ok m →
      (c.Equals ≠ "" ∧ m = equalsMatcher (Split c.Field) c.Equals) ∨
      (c.Equals = "" ∧ c.Regex ≠ "" ∧
        ∃ re, Compile c.Regex = .ok re ∧ m = regexMatcher (Split c.Field) re) := by
    intro c m hA hO hm
    obtain ⟨F, E, R, A, O⟩ := c
    simp only [Condition.And, Condition.Or] at hA hO
    subst hA hO
    simp only [Condition.Field, Condition.Equals, Condition.Regex]
    by_cases hF : F = ""
    · simp [compileCondition, hF] at hm
    · by_cases hE : E = ""
      · by_cases hR : R = ""
        · simp [compileCondition, hF, hE, hR] at hm
        · cases hre : Compile R with
          | error err => simp [compileCondition, hF, hE, hR, hre] at hm
          | ok re =>
            simp [compileCondition, hF, hE, hR, hre] at hm
            exact Or.inr ⟨hE, hR, re, rfl, hm.symm⟩
      · simp [compileCondition, hF, hE] at hm
        exact Or.inl ⟨hE, hm.symm⟩
  have equals_empty : ∀ (path : List String) (T : String) (event : Event), T ≠ "" →
      Sprint (getNestedField event path) = "" → equalsMatcher path T event = some false := by
    intro path T event hT hs
    unfold equalsMatcher
    simp only [hs]
    split
    · rfl
    · simp [Ne.symm hT]
  refine ⟨?_, cases_leaf, ?_, ?_⟩
  · intro F
    rw [Bool.eq_false_iff, ne_eq, compileCondition_isOk_iff]
    simp [Condition.And, Condition.Or, Condition.Equals, Condition.Regex]
  · intro c m event hA hO hE hm hs
    rcases cases_leaf c m hA hO hm with ⟨_, rfl⟩ | ⟨hE2, _⟩
    · exact equals_empty _ _ _ hE hs
    · exact absurd hE2 hE
  · intro T hT
    refine ⟨_, compileCondition_equals_leaf Compile "type" T "" (by decide) hT, ?_⟩
    exact equals_empty _ _ _ hT (by rfl)

/-- Witness of C20 on the leaf `type = nmap` and the event `{"type": ""}`. -/
theorem C20_empty_equals_witness :
    equalsMatcher (Split "type") "nmap" [("type", .str "")] = some false :=
  (C20_empty_equals_is_no_equals literalCompile).2.2.1 (.mk "type" "nmap" "" [] [])
    (equalsMatcher (Split "type") "nmap") [("type", .str "")] rfl rfl (by decide) (by rfl)
    (by rfl)

end Siem
